import Mathlib

/-!
Verification of the OpenMuse incremental score reconstruction and structural
editing engine (backend/musicxml_utils.py and backend/claude_service.py).

The development shallowly embeds the Python source:

* strings are Lean `String`s, manipulated through explicit `List Char`
  scanning functions mirroring Python's `in`, `str.count`, `str.rfind`,
  `str.startswith` and slicing;
* the XML layer (`lxml.etree` / `xml.etree.ElementTree`) is modelled by an
  executable recursive-descent parser over a tree type `XElem`; the parser
  validates well-formedness (balanced, properly nested tags, attribute
  syntax, a single root, prolog and doctype skipping) and records the
  element structure (tags, attributes, children).  Character data is
  consumed and discarded: none of the verified operations ever reads
  `Element.text`, so the tree built by the parser carries `""` there.
  The parser is deliberately permissive about character data (it does not
  insist on entity escaping), which only widens the set of accepted inputs;
* `etree.tostring(..., pretty_print=True)` is modelled by an executable
  pretty-printing serializer with standard XML escaping;
* fallible Python functions (`try`/`except`) return `Option`/`Except`.
-/

/-! ## List-of-characters utilities (Python string operations) -/

/-- Index of the first occurrence of `pat` in `cs` (Python `str.find` when
the result is `some`, `-1` becomes `none`). -/
def findSub (pat : List Char) : List Char → Option Nat
  | [] => if pat.isPrefixOf ([] : List Char) then some 0 else none
  | c :: rest =>
    if pat.isPrefixOf (c :: rest) then some 0
    else (findSub pat rest).map (· + 1)

/-- Python `pat in s`. -/
def containsSub (cs pat : List Char) : Bool := (findSub pat cs).isSome

/-- Index of the last occurrence of `pat` in `cs` (Python `str.rfind`,
`-1` becomes `none`). -/
def rfindSub (pat : List Char) : List Char → Option Nat
  | [] => if pat.isPrefixOf ([] : List Char) then some 0 else none
  | c :: rest =>
    match rfindSub pat rest with
    | some i => some (i + 1)
    | none => if pat.isPrefixOf (c :: rest) then some 0 else none

/-- Python `str.count`: number of non-overlapping occurrences of `pat`,
scanning left to right.  Fuelled to keep the recursion structural; the
wrapper always supplies enough fuel. -/
def countSubAux : Nat → List Char → List Char → Nat
  | 0, _, _ => 0
  | _ + 1, _, [] => 0
  | fuel + 1, pat, c :: rest =>
    if pat ≠ [] ∧ pat.isPrefixOf (c :: rest) then
      1 + countSubAux fuel pat ((c :: rest).drop pat.length)
    else
      countSubAux fuel pat rest

def countSub (cs pat : List Char) : Nat := countSubAux cs.length pat cs

/-! ## XML document model

`lxml`/`ElementTree` represent an element as a tag, an attribute dictionary
and a list of child elements (character data lives in `.text`/`.tail`
attributes, not as child nodes).  `XList` is an inlined list of children so
that all recursions over the tree are structural (and therefore reduce in
the kernel). -/

mutual
inductive XElem where
  | node (tag : String) (attrs : List (String × String)) (text : String)
      (children : XList) : XElem
  deriving DecidableEq
inductive XList where
  | nil : XList
  | cons : XElem → XList → XList
  deriving DecidableEq
end

def XElem.tag : XElem → String
  | .node t _ _ _ => t

def XElem.attrs : XElem → List (String × String)
  | .node _ a _ _ => a

def XElem.text : XElem → String
  | .node _ _ x _ => x

def XElem.childrenX : XElem → XList
  | .node _ _ _ cs => cs

def XList.toList : XList → List XElem
  | .nil => []
  | .cons e rest => e :: rest.toList

def listToX : List XElem → XList
  | [] => .nil
  | e :: rest => .cons e (listToX rest)

/-- The direct child elements, as a Lean list. -/
def XElem.children (e : XElem) : List XElem := e.childrenX.toList

/-- `element.findall(tag)`: direct children with the given tag. -/
def XElem.findall (e : XElem) (t : String) : List XElem :=
  e.children.filter (fun c => c.tag == t)

/-- `element.find(tag)`: first direct child with the given tag. -/
def XElem.findChild (e : XElem) (t : String) : Option XElem :=
  e.children.find? (fun c => c.tag == t)

/-- `element.get(name)`: attribute lookup. -/
def XElem.getAttr (e : XElem) (n : String) : Option String :=
  (e.attrs.find? (fun p => p.1 == n)).map (fun p => p.2)

def setAttrList (n v : String) : List (String × String) → List (String × String)
  | [] => [(n, v)]
  | (k, w) :: rest =>
    if k == n then (n, v) :: rest else (k, w) :: setAttrList n v rest

/-- `element.set(name, value)`: overwrite an attribute in place (or append
it when absent). -/
def XElem.setAttr : XElem → String → String → XElem
  | .node t a x cs, n, v => .node t (setAttrList n v a) x cs

/-! ## XML parsing

A fuelled structural tokenizer (one fuel unit per character examined at the
top level) followed by a stack-machine tree builder.  A parse error is any
`none`. -/

inductive Tok where
  | openT (tag : String) (attrs : List (String × String)) : Tok
  | closeT (tag : String) : Tok
  | selfT (tag : String) (attrs : List (String × String)) : Tok
  deriving DecidableEq

def isSpaceChar (c : Char) : Bool :=
  c == ' ' || c == '\t' || c == '\n' || c == '\r'

/-- Characters allowed in tag and attribute names. -/
def isNameChar (c : Char) : Bool :=
  !(c == '<' || c == '>' || c == '/' || c == '=' || c == '"' ||
    c == '\'' || c == '?' || c == '!' || isSpaceChar c)

/-- Skip a processing instruction (after `<?`), up to and including `?>`. -/
def skipPI : List Char → Option (List Char)
  | [] => none
  | c :: rest =>
    if c = '?' ∧ rest.head? = some '>' then some rest.tail else skipPI rest

/-- Skip a `<!...>` declaration (after `<!`), up to and including `>`. -/
def skipDecl (cs : List Char) : Option (List Char) :=
  match cs.dropWhile (fun c => c != '>') with
  | _ :: rest => some rest
  | [] => none

/-- Decode the predefined XML character entities (the inverse of the
serializer's escaping; a bare `&` that forms no recognized entity is kept
as-is, a permissiveness that only widens the accepted inputs). -/
def decodeEntities : List Char → List Char
  | [] => []
  | '&' :: 'a' :: 'm' :: 'p' :: ';' :: rest => '&' :: decodeEntities rest
  | '&' :: 'l' :: 't' :: ';' :: rest => '<' :: decodeEntities rest
  | '&' :: 'g' :: 't' :: ';' :: rest => '>' :: decodeEntities rest
  | '&' :: 'q' :: 'u' :: 'o' :: 't' :: ';' :: rest => '"' :: decodeEntities rest
  | c :: rest => c :: decodeEntities rest

/-- Parse the attribute list of a start tag, ending at `>` or `/>`.
Returns the attributes (entity-decoded values), whether the tag was
self-closing, and the rest of the input. -/
def parseAttrsAux : Nat → List Char → Option (List (String × String) × Bool × List Char)
  | 0, _ => none
  | fuel + 1, cs0 =>
    if (cs0.dropWhile isSpaceChar).head? = some '>' then
      some ([], false, (cs0.dropWhile isSpaceChar).tail)
    else if (cs0.dropWhile isSpaceChar).head? = some '/' ∧
        (cs0.dropWhile isSpaceChar).tail.head? = some '>' then
      some ([], true, (cs0.dropWhile isSpaceChar).tail.tail)
    else if ((cs0.dropWhile isSpaceChar).takeWhile isNameChar).isEmpty then none
    else if ((cs0.dropWhile isSpaceChar).dropWhile isNameChar).head? = some '=' then
      match ((cs0.dropWhile isSpaceChar).dropWhile isNameChar).tail.head? with
      | some q =>
        if q = '"' ∨ q = '\'' then
          if (((cs0.dropWhile isSpaceChar).dropWhile isNameChar).tail.tail.dropWhile
              (fun c => c != q)).isEmpty then none
          else
            (parseAttrsAux fuel
              (((cs0.dropWhile isSpaceChar).dropWhile isNameChar).tail.tail.dropWhile
                (fun c => c != q)).tail).map
              (fun r =>
                ((((cs0.dropWhile isSpaceChar).takeWhile isNameChar).asString,
                  (decodeEntities
                    (((cs0.dropWhile isSpaceChar).dropWhile isNameChar).tail.tail.takeWhile
                      (fun c => c != q))).asString) :: r.1, r.2))
        else none
      | none => none
    else none

def tokenizeAux : Nat → List Char → Option (List Tok)
  | 0, _ => none
  | _ + 1, [] => some []
  | fuel + 1, c :: rest =>
    if c = '<' then
      if rest.head? = some '?' then (skipPI rest.tail).bind (tokenizeAux fuel)
      else if rest.head? = some '!' then (skipDecl rest.tail).bind (tokenizeAux fuel)
      else if rest.head? = some '/' then
        if (rest.tail.takeWhile isNameChar).isEmpty then none
        else if ((rest.tail.dropWhile isNameChar).dropWhile isSpaceChar).head? =
            some '>' then
          (tokenizeAux fuel
            ((rest.tail.dropWhile isNameChar).dropWhile isSpaceChar).tail).map
            (fun ts => Tok.closeT (rest.tail.takeWhile isNameChar).asString :: ts)
        else none
      else
        if (rest.takeWhile isNameChar).isEmpty then none
        else
          match parseAttrsAux rest.length (rest.dropWhile isNameChar) with
          | none => none
          | some att =>
            (tokenizeAux fuel att.2.2).map (fun ts =>
              (if att.2.1 then
                Tok.selfT (rest.takeWhile isNameChar).asString att.1
              else
                Tok.openT (rest.takeWhile isNameChar).asString att.1) :: ts)
    else
      tokenizeAux fuel rest

def tokenize (cs : List Char) : Option (List Tok) := tokenizeAux (cs.length + 1) cs

/-- A frame of the tree-building stack: tag, attributes and the children
completed so far of a still-open element. -/
abbrev Frame := String × List (String × String) × List XElem

/-- Stack machine turning a token stream into a single rooted tree.
Rejects mismatched or unbalanced tags and trailing material after the root
element closes. -/
def build : List Tok → List Frame → Option XElem
  | [], _ => none
  | Tok.openT nm ats :: rest, stack => build rest ((nm, ats, []) :: stack)
  | Tok.selfT nm ats :: rest, stack =>
    match stack with
    | [] => if rest.isEmpty then some (XElem.node nm ats "" XList.nil) else none
    | (t, a, cs) :: st =>
      build rest ((t, a, cs ++ [XElem.node nm ats "" XList.nil]) :: st)
  | Tok.closeT nm :: rest, stack =>
    match stack with
    | [] => none
    | (t, a, cs) :: st =>
      if t = nm then
        match st with
        | [] =>
          if rest.isEmpty then some (XElem.node t a "" (listToX cs)) else none
        | (t2, a2, cs2) :: st2 =>
          build rest ((t2, a2, cs2 ++ [XElem.node t a "" (listToX cs)]) :: st2)
      else none

/-- `etree.fromstring` / `ET.fromstring`: parse a document, or fail with a
syntax diagnostic. -/
def parseXML (s : String) : Except String XElem :=
  match tokenize s.toList with
  | none => Except.error "invalid token"
  | some toks =>
    match build toks [] with
    | none => Except.error "document structure is not well-formed"
    | some e => Except.ok e

/-! ## validate_musicxml (backend/musicxml_utils.py, lines 12-47) -/

/-- `validate_musicxml`: parse, then check root tag, presence of
`part-list`, at least one `part`, and at least one `measure` per part,
short-circuiting at the first failure. -/
def validate_musicxml (xml_string : String) : Bool × Option String :=
  match parseXML xml_string with
  | Except.error e => (false, some ("XML syntax error: " ++ e))
  | Except.ok root =>
    if root.tag ≠ "score-partwise" ∧ root.tag ≠ "score-timewise" then
      (false, some ("Invalid root element: " ++ root.tag ++
        ". Expected 'score-partwise' or 'score-timewise'"))
    else
      match root.findChild "part-list" with
      | none => (false, some "Missing required <part-list> element")
      | some _ =>
        let parts := root.findall "part"
        if parts.length = 0 then
          (false, some "No <part> elements found")
        else
          match parts.find? (fun p => (p.findall "measure").length == 0) with
          | some p =>
            (false, some ("Part '" ++ ((p.getAttr "id").getD "unknown") ++
              "' has no measures"))
          | none => (true, none)

/-! ## fifths_to_key and get_clef_info (backend/musicxml_utils.py) -/

def major_keys : List String :=
  ["C", "G", "D", "A", "E", "B", "F#", "C#",
   "F", "Bb", "Eb", "Ab", "Db", "Gb", "Cb"]

def minor_keys : List String :=
  ["a", "e", "b", "f#", "c#", "g#", "d#", "a#",
   "d", "g", "c", "f", "bb", "eb", "ab"]

/-- `fifths_to_key`: table lookup over the circle of fifths.  (The Python
indexes the list directly; out-of-range indices, which in Python would
raise `IndexError`, are given the harmless default `""` here — no claim
touches them.) -/
def fifths_to_key (fifths : Int) (mode : String) : String :=
  let keys := if mode = "major" then major_keys else minor_keys
  if fifths ≥ 0 then
    if fifths < 8 then keys.getD fifths.toNat "" else keys.getD 0 ""
  else
    if (fifths.natAbs : Int) < 8 then keys.getD (8 + fifths.natAbs) ""
    else keys.getD 8 ""

/-- `get_clef_info`: clef token to (sign, line), defaulting to treble. -/
def get_clef_info (clef_type : String) : String × String :=
  if clef_type = "G" then ("G", "2")
  else if clef_type = "F" then ("F", "4")
  else if clef_type = "C" then ("C", "3")
  else if clef_type = "C4" then ("C", "4")
  else if clef_type = "percussion" then ("percussion", "2")
  else ("G", "2")

/-! ## _try_extract_partial_musicxml (backend/claude_service.py, lines 142-195) -/

/-- Model of `re.search(r'(<score-partwise[^>]*>.*)', text, re.DOTALL)`:
the leftmost match starts at the first occurrence of the literal
`<score-partwise`; the pattern then requires a `>` later in the input
(the first such `>` matches `[^>]*>`); with `re.DOTALL`, group 1 extends
from the match start to the end of the input.  (If the first occurrence of
the literal has no `>` anywhere after it, neither does any later
occurrence, so returning the suffix at the first occurrence is exact.) -/
def searchScoreOpen (cs : List Char) : Option (List Char) :=
  match findSub "<score-partwise".toList cs with
  | none => none
  | some i =>
    let rest := cs.drop i
    if containsSub (rest.drop "<score-partwise".length) ['>'] then some rest
    else none

/-- `_try_extract_partial_musicxml`, on character lists.  `open_parts` is
Python int arithmetic, but a negative value makes `range(open_parts)`
empty, which coincides with truncated `Nat` subtraction. -/
def tryExtractPartialAux (cs : List Char) : Option (List Char) :=
  if ¬ containsSub cs "<score-partwise".toList then none
  else if ¬ containsSub cs "</part-list>".toList then none
  else if ¬ containsSub cs "</measure>".toList then none
  else
    match searchScoreOpen cs with
    | none => none
    | some part0 =>
      match rfindSub "</measure>".toList part0 with
      | none => none
      | some idx =>
        let part1 := part0.take (idx + "</measure>".length)
        let openParts := countSub part1 "<part ".toList +
          countSub part1 "<part>".toList - countSub part1 "</part>".toList
        let part2 := part1 ++ (List.replicate openParts "\n  </part>".toList).flatten
        let part3 := part2 ++ "\n</score-partwise>".toList
        let part4 :=
          if "<?xml".toList.isPrefixOf part3 then part3
          else "<?xml version=\"1.0\" encoding=\"UTF-8\"?>\n".toList ++ part3
        match parseXML part4.asString with
        | Except.ok _ => some part4
        | Except.error _ => none

/-- `ClaudeService._try_extract_partial_musicxml`: extract and complete a
partial MusicXML snapshot for live preview, or return `None`. -/
def _try_extract_partial_musicxml (text : String) : Option String :=
  (tryExtractPartialAux text.toList).map List.asString

/-! ## chat_stream emission loop (backend/claude_service.py, lines 235-261) -/

/-- `partial_xml.count('</measure>')`. -/
def measureCount (s : String) : Nat := countSub s.toList "</measure>".toList

/-- The per-session mutable state of `chat_stream`'s streaming loop:
`accumulated_text` and the `last_rendered_measures` watermark. -/
structure StreamState where
  accumulated_text : String
  last_rendered_measures : Nat
  deriving DecidableEq

/-- One iteration of `chat_stream`'s `for text in stream.text_stream` loop:
append the chunk, try to extract a partial snapshot, and emit it iff its
measure count strictly exceeds the watermark (text-progress events are not
snapshots and are not modelled as emissions). -/
def stepChunk (st : StreamState) (chunk : String) : StreamState × Option (String × Nat) :=
  match _try_extract_partial_musicxml (st.accumulated_text ++ chunk) with
  | some p =>
    if st.last_rendered_measures < measureCount p then
      ({ accumulated_text := st.accumulated_text ++ chunk,
         last_rendered_measures := measureCount p }, some (p, measureCount p))
    else
      ({ accumulated_text := st.accumulated_text ++ chunk,
         last_rendered_measures := st.last_rendered_measures }, none)
  | none =>
    ({ accumulated_text := st.accumulated_text ++ chunk,
       last_rendered_measures := st.last_rendered_measures }, none)

def runChunks : StreamState → List String → StreamState × List (String × Nat)
  | st, [] => (st, [])
  | st, c :: rest =>
    ((runChunks (stepChunk st c).1 rest).1,
     (stepChunk st c).2.toList ++ (runChunks (stepChunk st c).1 rest).2)

/-- The sequence of partial-snapshot emissions of one `chat_stream`
session fed the given chunks (state starts at `accumulated_text = ""`,
`last_rendered_measures = 0`). -/
def chat_stream_emissions (chunks : List String) : List (String × Nat) :=
  (runChunks { accumulated_text := "", last_rendered_measures := 0 } chunks).2

/-! ## Concrete documents and buffers used by the scenario claims -/

/-- The measure numbers of every part of a parsed document (`none` when the
document does not parse): one list per `part` child, one entry per
`measure` child. -/
def partMeasureNumbers (s : String) : Option (List (List (Option String))) :=
  match parseXML s with
  | Except.ok t =>
    some ((t.findall "part").map
      (fun p => (p.findall "measure").map (fun m => m.getAttr "number")))
  | Except.error _ => none

/-- A streaming buffer: root open tag, complete part-list, one complete
measure and a trailing incomplete second measure (the C3 scenario). -/
def scenarioPrefix : String :=
  "<score-partwise version=\"4.0\"><part-list><score-part id=\"P1\">" ++
  "<part-name>Piano</part-name></score-part></part-list>" ++
  "<part id=\"P1\"><measure number=\"1\"><note><rest/><duration>4</duration>" ++
  "</note></measure>"

def scenarioBuffer : String := scenarioPrefix ++ "<measure number=\"2\">"

def scenarioSnapshot : String :=
  "<?xml version=\"1.0\" encoding=\"UTF-8\"?>\n" ++ scenarioPrefix ++
  "\n  </part>\n</score-partwise>"

/-- A streaming buffer containing a complete `part-list` and a complete
measure but no `part` element at all: the reconstructor accepts it (its
completion parses), yet the resulting snapshot fails the validator. -/
def bufferNoPart : String :=
  "<score-partwise><part-list><score-part id=\"P1\"/></part-list>" ++
  "<measure number=\"1\"></measure>"

def snapshotNoPart : String :=
  "<?xml version=\"1.0\" encoding=\"UTF-8\"?>\n" ++ bufferNoPart ++
  "\n</score-partwise>"

/-! ## Serialization (`etree.tostring(..., pretty_print=True)`)

lxml's pretty printer puts each element on its own line, indented two
spaces per depth; an element with text but no children is rendered inline;
an element with neither text nor children is rendered self-closing.  Text
and attribute values are entity-escaped. -/

def escTextChar (c : Char) : List Char :=
  if c = '&' then "&amp;".toList
  else if c = '<' then "&lt;".toList
  else if c = '>' then "&gt;".toList
  else [c]

def escText (s : String) : List Char := (s.toList.map escTextChar).flatten

def escAttrChar (c : Char) : List Char :=
  if c = '&' then "&amp;".toList
  else if c = '<' then "&lt;".toList
  else if c = '>' then "&gt;".toList
  else if c = '"' then "&quot;".toList
  else [c]

def escAttr (s : String) : List Char := (s.toList.map escAttrChar).flatten

def serializeAttrs : List (String × String) → List Char
  | [] => []
  | (n, v) :: rest =>
    ' ' :: (n.toList ++ '=' :: '"' :: (escAttr v ++ '"' :: serializeAttrs rest))

def indentChars (d : Nat) : List Char := List.replicate (2 * d) ' '

mutual
def serializeElem : Nat → XElem → List Char
  | d, .node t a x cs =>
    if cs = XList.nil then
      if x = "" then
        indentChars d ++ '<' :: (t.toList ++ serializeAttrs a ++ ['/', '>', '\n'])
      else
        indentChars d ++ '<' :: (t.toList ++ serializeAttrs a ++ '>' ::
          (escText x ++ '<' :: '/' :: (t.toList ++ ['>', '\n'])))
    else
      indentChars d ++ '<' :: (t.toList ++ serializeAttrs a ++ '>' :: '\n' ::
        (serializeList (d + 1) cs ++ indentChars d ++ '<' :: '/' ::
          (t.toList ++ ['>', '\n'])))
def serializeList : Nat → XList → List Char
  | _, .nil => []
  | d, .cons e rest => serializeElem d e ++ serializeList d rest
end

/-- `etree.tostring(root, encoding='unicode', pretty_print=True)`. -/
def tostringPretty (root : XElem) : String := (serializeElem 0 root).asString

def xmlDeclLine : String := "<?xml version=\"1.0\" encoding=\"UTF-8\"?>\n"

def MUSICXML_DOCTYPE : String :=
  "<!DOCTYPE score-partwise PUBLIC \"-//Recordare//DTD MusicXML 4.0 Partwise//EN\" \"http://www.musicxml.org/dtds/partwise.dtd\">"

mutual
/-- The token stream the serializer's output denotes: a self-closing tag
for an element with neither text nor children, and an open/close pair
otherwise. -/
def flattenElem : XElem → List Tok
  | .node t a x cs =>
    if cs = XList.nil ∧ x = "" then [Tok.selfT t a]
    else Tok.openT t a :: (flattenList cs ++ [Tok.closeT t])
def flattenList : XList → List Tok
  | .nil => []
  | .cons e rest => flattenElem e ++ flattenList rest
end

mutual
/-- Erase all character data from a tree — exactly what a parse of the
serialized document recovers, since the parser records elements only. -/
def stripElem : XElem → XElem
  | .node t a _ cs => .node t a "" (stripList cs)
def stripList : XList → XList
  | .nil => .nil
  | .cons e rest => .cons (stripElem e) (stripList rest)
end

/-- Well-formed tag/attribute names: non-empty and made of name
characters.  (Attribute and text values are unconstrained: serialization
escapes them.) -/
def wfName (s : String) : Bool := !s.toList.isEmpty && s.toList.all isNameChar

def wfAttrs (a : List (String × String)) : Bool := a.all (fun p => wfName p.1)

mutual
def wfElem : XElem → Bool
  | .node t a _ cs => wfName t && wfAttrs a && wfList cs
def wfList : XList → Bool
  | .nil => true
  | .cons e rest => wfElem e && wfList rest
end

/-! ## create_empty_score (backend/musicxml_utils.py, lines 137-252) -/

/-- One entry of the `parts` argument of `create_empty_score`: a Python
dict with mandatory `id` and `name` and optional `abbreviation`, `clef`
and `midi_program` keys (`.get` defaults are applied where the source
applies them; `abbreviation` is used only when truthy, i.e. present and
non-empty). -/
structure PartDef where
  id : String
  name : String
  abbreviation : Option String
  clef : Option String
  midi_program : Option Int
  deriving DecidableEq

/-- Helper: build a node from a Lean list of children. -/
def xnode (t : String) (a : List (String × String)) (x : String)
    (cs : List XElem) : XElem :=
  XElem.node t a x (listToX cs)

/-- The `<score-part>` entry of the part list. -/
def scorePartElem (pd : PartDef) : XElem :=
  xnode "score-part" [("id", pd.id)] ""
    ([xnode "part-name" [] pd.name []] ++
     (match pd.abbreviation with
      | some ab => if ab ≠ "" then [xnode "part-abbreviation" [] ab []] else []
      | none => []) ++
     [xnode "score-instrument" [("id", pd.id ++ "-I1")] ""
        [xnode "instrument-name" [] pd.name []],
      xnode "midi-instrument" [("id", pd.id ++ "-I1")] ""
        [xnode "midi-channel" [] "1" [],
         xnode "midi-program" [] (toString (pd.midi_program.getD 0 + 1)) []]])

/-- The `<attributes>` block of measure 1. -/
def attributesElem (key_fifths : Int) (time_sig : Nat × Nat)
    (clefSign clefLine : String) : XElem :=
  xnode "attributes" [] ""
    [xnode "divisions" [] "1" [],
     xnode "key" [] "" [xnode "fifths" [] (toString key_fifths) []],
     xnode "time" [] ""
       [xnode "beats" [] (toString time_sig.1) [],
        xnode "beat-type" [] (toString time_sig.2) []],
     xnode "clef" [] ""
       [xnode "sign" [] clefSign [], xnode "line" [] clefLine []]]

/-- The tempo `<direction>` attached to measure 1 of the first part. -/
def directionElem (tempo : Int) : XElem :=
  xnode "direction" [("placement", "above")] ""
    [xnode "direction-type" [] ""
       [xnode "metronome" [] ""
          [xnode "beat-unit" [] "quarter" [],
           xnode "per-minute" [] (toString tempo) []]],
     xnode "sound" [("tempo", toString tempo)] "" []]

/-- A full-measure rest note (one per beat). -/
def restNote : XElem :=
  xnode "note" [] ""
    [xnode "rest" [] "" [], xnode "duration" [] "1" [],
     xnode "type" [] "quarter" []]

/-- Measure `m` of a part (`part_idx` decides whether the tempo direction
is attached). -/
def measureElem (part_idx : Nat) (time_sig : Nat × Nat) (key_fifths : Int)
    (tempo : Int) (clefSign clefLine : String) (m : Nat) : XElem :=
  xnode "measure" [("number", toString m)] ""
    ((if m = 1 then
        [attributesElem key_fifths time_sig clefSign clefLine] ++
        (if part_idx = 0 then [directionElem tempo] else [])
      else []) ++
     List.replicate time_sig.1 restNote)

/-- The `<part>` body: measures `1..measures`. -/
def partBodyElem (part_idx : Nat) (pd : PartDef) (time_sig : Nat × Nat)
    (key_fifths : Int) (tempo : Int) (measures : Nat) : XElem :=
  xnode "part" [("id", pd.id)] ""
    ((List.range measures).map (fun i =>
      measureElem part_idx time_sig key_fifths tempo
        (get_clef_info (pd.clef.getD "G")).1
        (get_clef_info (pd.clef.getD "G")).2 (i + 1)))

/-- The default single-piano part list (`parts=None`). -/
def defaultParts : List PartDef :=
  [{ id := "P1", name := "Piano", abbreviation := some "Pno.",
     clef := some "G", midi_program := some 0 }]

/-- The element tree built by `create_empty_score` before serialization. -/
def scoreTree (title composer : String) (parts : List PartDef)
    (time_sig : Nat × Nat) (key_fifths : Int) (tempo : Int)
    (measures : Nat) : XElem :=
  xnode "score-partwise" [("version", "4.0")] ""
    ([xnode "work" [] "" [xnode "work-title" [] title []]] ++
     (if composer ≠ "" then
        [xnode "identification" [] ""
           [xnode "creator" [("type", "composer")] composer []]]
      else []) ++
     [xnode "part-list" [] "" (parts.map scorePartElem)] ++
     parts.mapIdx (fun i pd =>
       partBodyElem i pd time_sig key_fifths tempo measures))

/-- `create_empty_score`: XML declaration, doctype, then the
pretty-printed tree.  `parts = none` selects the default piano part. -/
def create_empty_score (title composer : String)
    (parts : Option (List PartDef)) (time_sig : Nat × Nat)
    (key_fifths : Int) (tempo : Int) (measures : Nat) : String :=
  xmlDeclLine ++ MUSICXML_DOCTYPE ++ "\n" ++
    tostringPretty (scoreTree title composer (parts.getD defaultParts)
      time_sig key_fifths tempo measures)

/-! ## merge_musicxml (backend/musicxml_utils.py, lines 255-301) -/

/-- Renumber a run of measures: element `i` gets number `start + i`
(`measure.set('number', str(...))`). -/
def renumFrom (start : Nat) (ms : List XElem) : List XElem :=
  ms.mapIdx (fun i m => m.setAttr "number" (toString (start + i)))

/-- The per-part merge of `merge_musicxml`, on the base part's measure
sequence.  With `insert_at_measure = none` the new measures are appended
and renumbered to continue the sequence; with `some at` they are
renumbered from `at`, inserted at (0-based) child position `at - 1`
(Python `list.insert` clamps an index past the end, matched here by
`take`/`drop`), and the base measures from position `at - 1` on are
renumbered upward past the insertion.  The source computes positions on
`part.findall('measure')` and inserts into the part's child list; the two
coincide because a `<part>`'s children are exactly its measures in every
document this system handles.  (`insert_at_measure ≤ 0` would hit
Python's negative-index `insert`/slice semantics and is not modelled;
the splice position is 1-based.) -/
def mergeMeasures (baseMs newMs : List XElem) (at? : Option Nat) : List XElem :=
  match at? with
  | none => baseMs ++ renumFrom (baseMs.length + 1) newMs
  | some at1 =>
    baseMs.take (at1 - 1) ++ renumFrom at1 newMs ++
      renumFrom (at1 + newMs.length) (baseMs.drop (at1 - 1))

/-- Merge the measures of `newPart` into a matching base part. -/
def mergeIntoPart (basePart newPart : XElem) (at? : Option Nat) : XElem :=
  match basePart with
  | .node t a x cs =>
    .node t a x (listToX (mergeMeasures cs.toList (newPart.findall "measure") at?))

mutual
/-- `base_root.find(".//part[@id=pid]")` followed by the in-place merge:
rewrite the first descendant `part` element (document order) whose `id`
attribute equals `pid`; report whether one was found. -/
def updFirstPartE (pid : String) (newPart : XElem) (at? : Option Nat) :
    XElem → XElem × Bool
  | .node t a x cs =>
    match updFirstPartL pid newPart at? cs with
    | (cs2, found) => (.node t a x cs2, found)
def updFirstPartL (pid : String) (newPart : XElem) (at? : Option Nat) :
    XList → XList × Bool
  | .nil => (.nil, false)
  | .cons e rest =>
    if e.tag == "part" && e.getAttr "id" == some pid then
      (.cons (mergeIntoPart e newPart at?) rest, true)
    else
      match updFirstPartE pid newPart at? e with
      | (e2, true) => (.cons e2 rest, true)
      | (_, false) =>
        match updFirstPartL pid newPart at? rest with
        | (rest2, found) => (.cons e rest2, found)
end

/-- The tree transformation of `merge_musicxml`: for every `part` child of
the addition, merge its measures into the first matching part of the base
(parts with no matching id are silently skipped).  A missing `id`
attribute makes the XPath literal the string `"None"`, as in the source's
f-string. -/
def mergeTree (base new : XElem) (at? : Option Nat) : XElem :=
  (new.findall "part").foldl
    (fun acc np => (updFirstPartE ((np.getAttr "id").getD "None") np at? acc).1)
    base

/-- The single-quote character U+0027 that delimits the string literal of
the source's f-string XPath `f".//part[@id='{part_id}']"`. -/
def squote : Char := Char.ofNat 39

/-- Whether `find(f".//part[@id='{part_id}']")` can compile its
ElementPath predicate: the id value is spliced between single quotes, so
an id that itself contains a single quote yields a predicate that does
not tokenize as `@id=<string>` and lxml raises
`SyntaxError("invalid predicate")` (any other character is swallowed by
the `'[^']*'` string token).  `new_part.get('id')` is `None` for a
missing attribute, rendered by the f-string as `"None"`, which contains
no quote. -/
def xpathIdOk (id? : Option String) : Bool :=
  !((id?.getD "None").toList.contains squote)

/-- `merge_musicxml`: parse both documents (any parse failure becomes the
`ValueError` with the `Failed to merge MusicXML:` message); a `part` of
the addition whose id contains a single quote makes the f-string XPath
predicate invalid, and the resulting `SyntaxError("invalid predicate")`
is re-raised through the same `ValueError` wrapper; otherwise merge and
re-serialize behind an XML declaration.  No validation is performed. -/
def merge_musicxml (base_xml new_xml : String) (insert_at_measure : Option Nat) :
    Except String String :=
  match parseXML base_xml with
  | Except.error e => Except.error ("Failed to merge MusicXML: " ++ e)
  | Except.ok broot =>
    match parseXML new_xml with
    | Except.error e => Except.error ("Failed to merge MusicXML: " ++ e)
    | Except.ok nroot =>
      if (nroot.findall "part").all (fun np => xpathIdOk (np.getAttr "id")) then
        Except.ok (xmlDeclLine ++
          tostringPretty (mergeTree broot nroot insert_at_measure))
      else
        Except.error "Failed to merge MusicXML: invalid predicate"

/-! ## extract_measures (backend/musicxml_utils.py, lines 304-338) -/

/-- Python `int(...)` on the string value of a `number` attribute
(restricted to an optional sign followed by decimal digits; `none` models
the `ValueError`/`TypeError` that the source converts into its
`Failed to extract measures:` error). -/
def digitsToNat? (cs : List Char) : Option Nat :=
  if cs ≠ [] ∧ cs.all (fun c => c.isDigit) then
    some (cs.foldl (fun acc c => acc * 10 + (c.toNat - 48)) 0)
  else none

def strToInt? (s : String) : Option Int :=
  match s.toList with
  | '-' :: rest => (digitsToNat? rest).map (fun n => -(n : Int))
  | '+' :: rest => (digitsToNat? rest).map (fun n => (n : Int))
  | cs => (digitsToNat? cs).map (fun n => (n : Int))

/-- First pass of `extract_measures` over one part's children: drop every
measure whose number lies outside `[start, end]`; fail if any measure's
number is absent or not an integer (the source calls `int` on every
measure's number while building the removal list). -/
def filterMeasures (start fin : Int) : List XElem → Option (List XElem)
  | [] => some []
  | c :: rest =>
    if c.tag == "measure" then
      match (c.getAttr "number").bind strToInt? with
      | none => none
      | some n =>
        match filterMeasures start fin rest with
        | none => none
        | some rest2 =>
          some (if n < start ∨ n > fin then rest2 else c :: rest2)
    else
      (filterMeasures start fin rest).map (fun rest2 => c :: rest2)

/-- Second pass: renumber the surviving measures contiguously from 1
(non-measure children pass through untouched). -/
def renumChildren (i : Nat) : List XElem → List XElem
  | [] => []
  | c :: rest =>
    if c.tag == "measure" then
      c.setAttr "number" (toString i) :: renumChildren (i + 1) rest
    else
      c :: renumChildren i rest

def extractFromPart (start fin : Int) (p : XElem) : Option XElem :=
  match p with
  | .node t a x cs =>
    (filterMeasures start fin cs.toList).map
      (fun cs2 => XElem.node t a x (listToX (renumChildren 1 cs2)))

/-- Apply the per-part extraction to every direct `part` child of the
root, leaving other children (e.g. the part-list) untouched. -/
def extractParts (start fin : Int) : List XElem → Option (List XElem)
  | [] => some []
  | c :: rest =>
    match (if c.tag == "part" then extractFromPart start fin c else some c),
          extractParts start fin rest with
    | some x, some xs => some (x :: xs)
    | _, _ => none

/-- `extract_measures`: parse, drop the measures outside `[start, end]`
from every part, renumber the survivors from 1, re-serialize.  There is no
`start ≤ end` check and no emptiness check; the only failure modes are a
parse failure and a missing/non-integer measure number, both surfaced as
the `Failed to extract measures:` `ValueError`. -/
def extract_measures (xml_string : String) (start fin : Int) :
    Except String String :=
  match parseXML xml_string with
  | Except.error e => Except.error ("Failed to extract measures: " ++ e)
  | Except.ok root =>
    match root with
    | .node t a x cs =>
      match extractParts start fin cs.toList with
      | none =>
        Except.error "Failed to extract measures: invalid measure number"
      | some cs2 =>
        Except.ok (xmlDeclLine ++
          tostringPretty (XElem.node t a x (listToX cs2)))

/-- Decidable equality for `Except`, so that concrete runs of the fallible
editor operations can be checked by `decide`. -/
instance {ε α : Type} [DecidableEq ε] [DecidableEq α] : DecidableEq (Except ε α)
  | Except.ok a, Except.ok b =>
    if h : a = b then Decidable.isTrue (congrArg Except.ok h)
    else Decidable.isFalse (fun hc => h (Except.ok.inj hc))
  | Except.error a, Except.error b =>
    if h : a = b then Decidable.isTrue (congrArg Except.error h)
    else Decidable.isFalse (fun hc => h (Except.error.inj hc))
  | Except.ok _, Except.error _ => Decidable.isFalse Except.noConfusion
  | Except.error _, Except.ok _ => Decidable.isFalse Except.noConfusion

/-! ## Concrete documents for the editing claims -/

/-- A 2-measure base document (measures contain `<note/>`). -/
def mergeBaseDoc : String :=
  "<score-partwise><part-list><score-part id=\"P1\"/></part-list>" ++
  "<part id=\"P1\"><measure number=\"1\"><note/></measure>" ++
  "<measure number=\"2\"><note/></measure></part></score-partwise>"

/-- A 3-measure addition for the same part (measures contain `<forward/>`,
distinguishing them from the base measures). -/
def mergeAddDoc : String :=
  "<score-partwise><part-list/><part id=\"P1\">" ++
  "<measure number=\"1\"><forward/></measure>" ++
  "<measure number=\"2\"><forward/></measure>" ++
  "<measure number=\"3\"><forward/></measure></part></score-partwise>"

/-- The output of `merge_musicxml mergeBaseDoc mergeAddDoc (some 2)`:
the base `<note/>` measure 1 stays first, the three `<forward/>` addition
measures occupy numbers 2-4, and the original second `<note/>` measure is
renumbered to 5. -/
def mergeExpected : String :=
  "<?xml version=\"1.0\" encoding=\"UTF-8\"?>\n<score-partwise>\n  <part-list>\n    <score-part id=\"P1\"/>\n  </part-list>\n  <part id=\"P1\">\n    <measure number=\"1\">\n      <note/>\n    </measure>\n    <measure number=\"2\">\n      <forward/>\n    </measure>\n    <measure number=\"3\">\n      <forward/>\n    </measure>\n    <measure number=\"4\">\n      <forward/>\n    </measure>\n    <measure number=\"5\">\n      <note/>\n    </measure>\n  </part>\n</score-partwise>\n"

/-- The output of `extract_measures mergeBaseDoc 3 2` (an inverted range):
no error, a document whose part has zero measures. -/
def extractEmptyExpected : String :=
  "<?xml version=\"1.0\" encoding=\"UTF-8\"?>\n<score-partwise>\n  <part-list>\n    <score-part id=\"P1\"/>\n  </part-list>\n  <part id=\"P1\"/>\n</score-partwise>\n"

/-- The tree `parseXML` produces for `mergeBaseDoc`. -/
def mergeBaseTree : XElem :=
  xnode "score-partwise" [] ""
    [xnode "part-list" [] "" [xnode "score-part" [("id", "P1")] "" []],
     xnode "part" [("id", "P1")] ""
       [xnode "measure" [("number", "1")] "" [xnode "note" [] "" []],
        xnode "measure" [("number", "2")] "" [xnode "note" [] "" []]]]

/-- Every measure child of every part of the document carries an integer
`number` attribute (otherwise the source's `int(measure.get('number'))`
raises and `extract_measures` fails for that reason alone). -/
def measureNumbersParse (root : XElem) : Bool :=
  (root.findall "part").all (fun p =>
    p.children.all (fun c =>
      c.tag != "measure" || ((c.getAttr "number").bind strToInt?).isSome))

/-- The base part's measure list of `mergeBaseDoc`. -/
def mergeBaseMs : List XElem :=
  [xnode "measure" [("number", "1")] "" [xnode "note" [] "" []],
   xnode "measure" [("number", "2")] "" [xnode "note" [] "" []]]

/-- The addition's measure list of `mergeAddDoc`. -/
def mergeAddMs : List XElem :=
  [xnode "measure" [("number", "1")] "" [xnode "forward" [] "" []],
   xnode "measure" [("number", "2")] "" [xnode "forward" [] "" []],
   xnode "measure" [("number", "3")] "" [xnode "forward" [] "" []]]

/-! ## Theorems -/

set_option maxRecDepth 100000

/-! ### Helper lemmas about the streaming loop -/

theorem stepChunk_acc (st : StreamState) (ch : String) :
    (stepChunk st ch).1.accumulated_text = st.accumulated_text ++ ch := by
  unfold stepChunk
  split
  · split <;> rfl
  · rfl

theorem stepChunk_spec (st : StreamState) (ch : String) (st1 : StreamState)
    (em : Option (String × Nat)) (h : stepChunk st ch = (st1, em)) :
    (em = none → st1.last_rendered_measures = st.last_rendered_measures) ∧
    (∀ p c, em = some (p, c) →
      st.last_rendered_measures < c ∧ st1.last_rendered_measures = c) := by
  unfold stepChunk at h
  cases hx : _try_extract_partial_musicxml (st.accumulated_text ++ ch) <;>
    rw [hx] at h
  · cases h
    simp
  · dsimp only at h
    split at h <;> cases h <;> simp_all

theorem stepChunk_no_growth (st : StreamState) (ch : String) :
    (stepChunk (stepChunk st ch).1 "").2 = none := by
  unfold stepChunk
  cases hx : _try_extract_partial_musicxml (st.accumulated_text ++ ch) with
  | none => simp [hx]
  | some p =>
    by_cases hlt : st.last_rendered_measures < measureCount p <;>
      simp [hx, hlt]

theorem runChunks_spec (chunks : List String) (st : StreamState) :
    (∀ e ∈ (runChunks st chunks).2, st.last_rendered_measures < e.2) ∧
    List.Chain' (fun a b : String × Nat => a.2 < b.2) (runChunks st chunks).2 := by
  induction chunks generalizing st with
  | nil => simp [runChunks]
  | cons ch rest ih =>
    rcases h1 : stepChunk st ch with ⟨st1, em⟩
    have hspec := stepChunk_spec st ch st1 em h1
    have ihs := ih st1
    unfold runChunks
    rw [h1]
    cases em with
    | none =>
      simp only [Option.toList, List.nil_append]
      refine ⟨fun e he => ?_, ihs.2⟩
      have hgt := ihs.1 e he
      rw [hspec.1 rfl] at hgt
      exact hgt
    | some pc =>
      obtain ⟨p, c⟩ := pc
      obtain ⟨hlt, hl1⟩ := hspec.2 p c rfl
      constructor
      · intro e he
        simp only [Option.toList, List.cons_append, List.nil_append,
          List.mem_cons] at he
        rcases he with rfl | he
        · exact hlt
        · exact lt_trans hlt (hl1 ▸ ihs.1 e he)
      · simp only [Option.toList, List.cons_append, List.nil_append]
        rw [List.chain'_cons']
        refine ⟨fun b hb => ?_, ihs.2⟩
        exact hl1 ▸ ihs.1 b (List.mem_of_mem_head? hb)

/-! ### Claim C7 -/

/-- Claim C7 (code bug): `fifths_to_key` in major mode does map `2` to
`"D"`, but it maps `-3` to `"Ab"`, not `"Eb"`: the flat-key tail of the
table (`F, Bb, Eb, ...`, starting at index 8) is laid out for fifths
`-1..-7`, but the index expression `8 + |fifths|` skips index 8, an
off-by-one.  The intended value `"Eb"` sits at index 10 = 8 + 3 - 1. -/
theorem fifths_to_key_code_values :
    fifths_to_key 2 "major" = "D" ∧
    fifths_to_key (-3) "major" = "Ab" ∧
    major_keys.getD 10 "" = "Eb" := by decide

/-! ### Claim C3 -/

/-- Claim C3: on a buffer with the root open tag, a complete part-list, one
complete measure and a trailing incomplete second measure open tag, the
reconstructor returns the snapshot truncated after measure 1 with a
synthetic `</part>` and the root closing tag appended (and the XML
declaration prepended), and that snapshot parses as XML with exactly one
part containing exactly measure "1". -/
theorem partial_extraction_scenario :
    _try_extract_partial_musicxml scenarioBuffer = some scenarioSnapshot ∧
    partMeasureNumbers scenarioSnapshot = some [[some "1"]] := by decide

/-! ### Claim C1 -/

/-- Claim C1 is false as stated: on `bufferNoPart` the reconstructor
emits a snapshot (the first and only emission of the session, at measure
count 1), and the validator rejects that snapshot because it has no
`<part>` element, so `validate` on it is not `(true, none)`. -/
theorem emitted_snapshot_fails_validator :
    chat_stream_emissions [bufferNoPart] = [(snapshotNoPart, 1)] ∧
    validate_musicxml snapshotNoPart = (false, some "No <part> elements found") ∧
    validate_musicxml snapshotNoPart ≠ (true, none) := by decide

/-- Claim C1 (amended): every snapshot returned by
`_try_extract_partial_musicxml` (and hence every snapshot `chat_stream`
emits) parses as well-formed XML — the function's final `ET.fromstring`
gate guarantees exactly this — but it need not pass the full
`validate_musicxml` contract. -/
theorem emitted_snapshot_parses (b s : String)
    (h : _try_extract_partial_musicxml b = some s) : (parseXML s).isOk := by
  unfold _try_extract_partial_musicxml tryExtractPartialAux at h
  simp only [Option.map_eq_some'] at h
  obtain ⟨a, ha, rfl⟩ := h
  split at ha
  · exact absurd ha (by simp)
  split at ha
  · exact absurd ha (by simp)
  split at ha
  · exact absurd ha (by simp)
  split at ha
  · exact absurd ha (by simp)
  split at ha
  · exact absurd ha (by simp)
  split at ha
  next e heq =>
    rw [Option.some_inj] at ha
    subst ha
    rw [heq]
    rfl
  next heq => exact absurd ha (by simp)

/-- Witness for `emitted_snapshot_parses` at the concrete buffer
`bufferNoPart`. -/
theorem emitted_snapshot_parses_witness :
    _try_extract_partial_musicxml bufferNoPart = some snapshotNoPart ∧
    (parseXML snapshotNoPart).isOk :=
  ⟨by decide, emitted_snapshot_parses bufferNoPart snapshotNoPart (by decide)⟩

/-! ### Claim C2 -/

/-- Claim C2: within one `chat_stream` session, the measure counts of
successive emitted partial snapshots are strictly increasing, and stepping
the loop again on an unchanged buffer (an empty growth increment) never
emits a second snapshot. -/
theorem chat_stream_monotone_and_no_reemit :
    (∀ chunks : List String,
      List.Chain' (fun a b : String × Nat => a.2 < b.2)
        (chat_stream_emissions chunks)) ∧
    (∀ (st : StreamState) (ch : String),
      (stepChunk (stepChunk st ch).1 "").2 = none) :=
  ⟨fun chunks => (runChunks_spec chunks _).2, stepChunk_no_growth⟩

/-! ### Helper lemmas for the structural editor -/

theorem renumFrom_getElem? (s : Nat) (ms : List XElem) (i : Nat) :
    (renumFrom s ms)[i]? =
      (ms[i]?).map (fun m => m.setAttr "number" (toString (s + i))) := by
  simp [renumFrom]

theorem renumFrom_length (s : Nat) (ms : List XElem) :
    (renumFrom s ms).length = ms.length := by
  simp [renumFrom]

/-! ### Claim C4 -/

/-- Claim C4: for a 1-based splice position `at1` within the base measure
sequence, `mergeMeasures` (the per-part transformation of
`merge_musicxml` with `insert_at_measure = at1`) splices the addition's
`k` measures, renumbered `at1, at1+1, ..., at1+k-1`, at position `at1`,
keeps the base measures before the splice untouched, and renumbers every
base measure originally at 1-based position `p ≥ at1` to `p + k` (now at
index `p - 1 + k`). -/
theorem merge_splice_renumbering (baseMs newMs : List XElem) (at1 : Nat)
    (h1 : 1 ≤ at1) (h2 : at1 ≤ baseMs.length + 1) :
    (mergeMeasures baseMs newMs (some at1)).length =
      baseMs.length + newMs.length ∧
    (∀ i, i < newMs.length →
      (mergeMeasures baseMs newMs (some at1))[at1 - 1 + i]? =
        (newMs[i]?).map (fun m => m.setAttr "number" (toString (at1 + i)))) ∧
    (∀ j, j < at1 - 1 →
      (mergeMeasures baseMs newMs (some at1))[j]? = baseMs[j]?) ∧
    (∀ j, at1 - 1 ≤ j → j < baseMs.length →
      (mergeMeasures baseMs newMs (some at1))[j + newMs.length]? =
        (baseMs[j]?).map
          (fun m => m.setAttr "number" (toString (j + 1 + newMs.length)))) := by
  have hta : (baseMs.take (at1 - 1)).length = at1 - 1 := by
    rw [List.length_take]; omega
  refine ⟨?_, ?_, ?_, ?_⟩
  · simp only [mergeMeasures, List.length_append, hta, renumFrom_length,
      List.length_drop]
    omega
  · intro i hi
    simp only [mergeMeasures]
    rw [List.getElem?_append_left
        (by simp only [List.length_append, hta, renumFrom_length]; omega),
      List.getElem?_append_right (by rw [hta]; omega), hta]
    have hidx : at1 - 1 + i - (at1 - 1) = i := by omega
    rw [hidx, renumFrom_getElem?]
  · intro j hj
    simp only [mergeMeasures]
    rw [List.getElem?_append_left
        (by simp only [List.length_append, hta, renumFrom_length]; omega),
      List.getElem?_append_left (by rw [hta]; omega),
      List.getElem?_take_of_lt hj]
  · intro j hj1 hj2
    simp only [mergeMeasures]
    rw [List.getElem?_append_right
        (by simp only [List.length_append, hta, renumFrom_length]; omega)]
    simp only [List.length_append, hta, renumFrom_length]
    have hidx : j + newMs.length - (at1 - 1 + newMs.length) = j - (at1 - 1) := by
      omega
    rw [hidx, renumFrom_getElem?, List.getElem?_drop]
    have hidx2 : at1 - 1 + (j - (at1 - 1)) = j := by omega
    have hidx3 : at1 + newMs.length + (j - (at1 - 1)) = j + 1 + newMs.length := by
      omega
    rw [hidx2, hidx3]

/-- Witness for `merge_splice_renumbering` at the concrete scenario:
a 3-measure addition merged into a 2-measure base at position 2, both at
the measure-list level (via the theorem) and at the document level
(`merge_musicxml` yields the addition as measures 2-4 and the original
measure 2 renumbered to 5). -/
theorem merge_splice_renumbering_witness :
    ((1 ≤ 2 ∧ 2 ≤ mergeBaseMs.length + 1) ∧
      (mergeMeasures mergeBaseMs mergeAddMs (some 2)).length =
        mergeBaseMs.length + mergeAddMs.length) ∧
    merge_musicxml mergeBaseDoc mergeAddDoc (some 2) =
      Except.ok mergeExpected ∧
    partMeasureNumbers mergeExpected =
      some [[some "1", some "2", some "3", some "4", some "5"]] :=
  ⟨⟨⟨by decide, by decide⟩,
    (merge_splice_renumbering mergeBaseMs mergeAddMs 2 (by decide) (by decide)).1⟩,
   by decide, by decide⟩

/-! ### Claim C5 -/

theorem toList_listToX (l : List XElem) : (listToX l).toList = l := by
  induction l with
  | nil => rfl
  | cons e rest ih => simp [listToX, XList.toList, ih]

theorem filterMeasures_isSome (start fin : Int) (l : List XElem)
    (h : ∀ c ∈ l, c.tag = "measure" →
      ((c.getAttr "number").bind strToInt?).isSome = true) :
    (filterMeasures start fin l).isSome = true := by
  induction l with
  | nil => simp [filterMeasures]
  | cons c rest ih =>
    have ihr := ih (fun d hd hm => h d (List.mem_cons_of_mem c hd) hm)
    simp only [filterMeasures]
    split
    next hc =>
      have hnum := h c (List.mem_cons_self c rest) (by simpa using hc)
      cases hx : (c.getAttr "number").bind strToInt? with
      | none => rw [hx] at hnum; simp at hnum
      | some n =>
        cases hrest : filterMeasures start fin rest with
        | none => rw [hrest] at ihr; simp at ihr
        | some rest2 => simp
    next hc =>
      cases hrest : filterMeasures start fin rest with
      | none => rw [hrest] at ihr; simp at ihr
      | some rest2 => simp

theorem filterMeasures_no_measures (start fin : Int) (hr : fin < start) :
    ∀ l l2, filterMeasures start fin l = some l2 →
      ∀ e ∈ l2, ¬ e.tag = "measure" := by
  intro l
  induction l with
  | nil =>
    intro l2 h
    simp only [filterMeasures, Option.some_inj] at h
    subst h
    simp
  | cons c rest ih =>
    intro l2 h
    simp only [filterMeasures] at h
    split at h
    next hc =>
      cases hx : (c.getAttr "number").bind strToInt? with
      | none => rw [hx] at h; cases h
      | some n =>
        rw [hx] at h
        cases hrest : filterMeasures start fin rest with
        | none => rw [hrest] at h; cases h
        | some rest2 =>
          rw [hrest] at h
          dsimp only at h
          have hdrop : (n < start ∨ n > fin) := by
            by_cases hlt : n < start
            · exact Or.inl hlt
            · exact Or.inr (by omega)
          rw [if_pos hdrop] at h
          cases h
          exact ih _ hrest
    next hc =>
      cases hrest : filterMeasures start fin rest with
      | none => rw [hrest] at h; cases h
      | some rest2 =>
        rw [hrest] at h
        simp only [Option.map_some', Option.some_inj] at h
        subst h
        intro e he
        rcases List.mem_cons.mp he with rfl | he2
        · simpa using hc
        · exact ih rest2 hrest e he2

theorem renumChildren_id (l : List XElem)
    (h : ∀ e ∈ l, ¬ e.tag = "measure") : ∀ i, renumChildren i l = l := by
  induction l with
  | nil => intro i; rfl
  | cons c rest ih =>
    intro i
    simp only [renumChildren]
    rw [if_neg (by simpa using h c (List.mem_cons_self c rest))]
    rw [ih (fun d hd => h d (List.mem_cons_of_mem c hd)) i]

theorem extractFromPart_no_measures (start fin : Int) (hr : fin < start)
    (p p2 : XElem) (h : extractFromPart start fin p = some p2) :
    p2.findall "measure" = [] := by
  cases p with
  | node t a x cs =>
    simp only [extractFromPart] at h
    cases hf : filterMeasures start fin cs.toList with
    | none => rw [hf] at h; cases h
    | some cs2 =>
      rw [hf] at h
      simp only [Option.map_some', Option.some_inj] at h
      subst h
      have hnom := filterMeasures_no_measures start fin hr _ _ hf
      rw [renumChildren_id cs2 hnom 1]
      simp only [XElem.findall, XElem.children, XElem.childrenX, toList_listToX]
      rw [List.filter_eq_nil_iff]
      intro e he
      simpa using hnom e he

theorem extractParts_spec (start fin : Int) (hr : fin < start) :
    ∀ l : List XElem,
      (∀ c ∈ l, c.tag = "part" → ∀ m ∈ c.children, m.tag = "measure" →
        ((m.getAttr "number").bind strToInt?).isSome = true) →
      ∃ l2, extractParts start fin l = some l2 ∧
        ∀ c ∈ l2, c.tag = "part" → c.findall "measure" = [] := by
  intro l
  induction l with
  | nil => intro _; exact ⟨[], rfl, by simp⟩
  | cons c rest ih =>
    intro h
    obtain ⟨l2, hl2, hprop⟩ :=
      ih (fun d hd => h d (List.mem_cons_of_mem c hd))
    by_cases hc : (c.tag == "part") = true
    · have hcc : c.tag = "part" := by simpa using hc
      have hsome : (extractFromPart start fin c).isSome = true := by
        have hme := fun m hm hmt => h c (List.mem_cons_self c rest) hcc m hm hmt
        rcases c with ⟨t, a, x, cs⟩
        simp only [extractFromPart]
        have hfm := filterMeasures_isSome start fin cs.toList hme
        cases hf : filterMeasures start fin cs.toList with
        | none => rw [hf] at hfm; simp at hfm
        | some cs2 => simp
      cases hx : extractFromPart start fin c with
      | none => rw [hx] at hsome; simp at hsome
      | some c2 =>
        refine ⟨c2 :: l2, ?_, ?_⟩
        · simp only [extractParts]
          rw [if_pos hc, hx, hl2]
        · intro d hd hdp
          rcases List.mem_cons.mp hd with rfl | hd2
          · exact extractFromPart_no_measures start fin hr _ _ hx
          · exact hprop d hd2 hdp
    · refine ⟨c :: l2, ?_, ?_⟩
      · simp only [extractParts]
        rw [if_neg hc, hl2]
      · intro d hd hdp
        rcases List.mem_cons.mp hd with rfl | hd2
        · exact absurd (by simp [hdp] : (d.tag == "part") = true) hc
        · exact hprop d hd2 hdp

/-! ### Claim C6 -/

/-- Claim C6 is false as stated: `extract_measures` with the inverted
range `start = 3 > 2 = end` on a 2-measure document does not fail at all —
it silently returns a document whose part has zero measures (which the
validator, run separately, rejects). -/
theorem extract_inverted_range_counterexample :
    extract_measures mergeBaseDoc 3 2 = Except.ok extractEmptyExpected ∧
    validate_musicxml extractEmptyExpected =
      (false, some "Part 'P1' has no measures") := by decide

/-- Claim C6 (amended): `extract_measures` performs no range check and no
emptiness check.  Whenever the source parses and every measure has an
integer number, an inverted range (`end < start`) silently succeeds and
yields a document in which every part has zero measures. -/
theorem extract_inverted_range_is_silent (s : String) (start fin : Int)
    (root : XElem) (hp : parseXML s = Except.ok root)
    (hn : measureNumbersParse root = true) (hr : fin < start) :
    (extract_measures s start fin).isOk = true ∧
    ∃ cs2, extractParts start fin root.children = some cs2 ∧
      ∀ c ∈ cs2, c.tag = "part" → c.findall "measure" = [] := by
  have hcond : ∀ c ∈ root.children, c.tag = "part" →
      ∀ m ∈ c.children, m.tag = "measure" →
        ((m.getAttr "number").bind strToInt?).isSome = true := by
    intro c hcmem hcpart m hm hmtag
    simp only [measureNumbersParse, List.all_eq_true] at hn
    have hcf : c ∈ root.findall "part" := by
      simp only [XElem.findall, List.mem_filter]
      exact ⟨hcmem, by simp [hcpart]⟩
    have := hn c hcf m hm
    simpa [hmtag] using this
  obtain ⟨l2, hl2, hprop⟩ := extractParts_spec start fin hr root.children hcond
  refine ⟨?_, ⟨l2, hl2, hprop⟩⟩
  unfold extract_measures
  rw [hp]
  cases root with
  | node t a x cs =>
    rw [show (XElem.node t a x cs).children = cs.toList from rfl] at hl2
    dsimp only
    rw [hl2]
    rfl

/-- Witness for `extract_inverted_range_is_silent` at the concrete
2-measure document and the inverted range `3..2`. -/
theorem extract_inverted_range_is_silent_witness :
    (parseXML mergeBaseDoc = Except.ok mergeBaseTree ∧
     measureNumbersParse mergeBaseTree = true ∧ (2 : Int) < 3) ∧
    (extract_measures mergeBaseDoc 3 2).isOk = true :=
  ⟨⟨by decide, by decide, by decide⟩,
   (extract_inverted_range_is_silent mergeBaseDoc 3 2 mergeBaseTree
     (by decide) (by decide) (by decide)).1⟩

/-! ### Claim C9 -/

/-- Claim C9: the validator's checks run in order and short-circuit.  On a
document that parses with an accepted root tag and a `part-list` present
but zero `part` children, it returns exactly
`(false, "No <part> elements found")`; and when a part without measures
exists, the message names the first such part's `id` attribute, defaulting
to `unknown` when the attribute is absent. -/
theorem validator_order_and_messages (s : String) (root : XElem)
    (hp : parseXML s = Except.ok root)
    (hroot : root.tag = "score-partwise" ∨ root.tag = "score-timewise")
    (hpl : (root.findChild "part-list").isSome = true) :
    ((root.findall "part").length = 0 →
      validate_musicxml s = (false, some "No <part> elements found")) ∧
    (∀ p, (root.findall "part").find?
        (fun q => (q.findall "measure").length == 0) = some p →
      validate_musicxml s =
        (false, some ("Part '" ++ ((p.getAttr "id").getD "unknown") ++
          "' has no measures"))) := by
  unfold validate_musicxml
  rw [hp]
  dsimp only
  rw [if_neg (by push_neg; rcases hroot with h | h <;> simp [h])]
  cases hplx : root.findChild "part-list" with
  | none => rw [hplx] at hpl; simp at hpl
  | some pl =>
    dsimp only
    constructor
    · intro hlen
      rw [if_pos hlen]
    · intro p hfind
      have hne : (root.findall "part").length ≠ 0 := by
        intro h0
        rw [List.length_eq_zero.mp h0] at hfind
        simp [List.find?] at hfind
      rw [if_neg hne, hfind]

/-- Witness for `validator_order_and_messages`: three concrete documents —
no parts at all, a part without measures and without id, and a part
`P2` without measures. -/
theorem validator_order_and_messages_witness :
    validate_musicxml "<score-partwise><part-list/></score-partwise>" =
      (false, some "No <part> elements found") ∧
    validate_musicxml "<score-partwise><part-list/><part/></score-partwise>" =
      (false, some "Part 'unknown' has no measures") ∧
    validate_musicxml
        "<score-partwise><part-list/><part id=\"P2\"/></score-partwise>" =
      (false, some "Part 'P2' has no measures") :=
  ⟨(validator_order_and_messages _
      (xnode "score-partwise" [] "" [xnode "part-list" [] "" []])
      (by decide) (by decide) (by decide)).1 (by decide),
   (validator_order_and_messages _
      (xnode "score-partwise" [] ""
        [xnode "part-list" [] "" [], xnode "part" [] "" []])
      (by decide) (by decide) (by decide)).2
      (xnode "part" [] "" []) (by decide),
   (validator_order_and_messages _
      (xnode "score-partwise" [] ""
        [xnode "part-list" [] "" [], xnode "part" [("id", "P2")] "" []])
      (by decide) (by decide) (by decide)).2
      (xnode "part" [("id", "P2")] "" []) (by decide)⟩

/-! ### Claim C10 -/

/-- Claim C10: `validate_musicxml` is total — on every input string it
returns either `(true, none)` or `(false, some message)` — and an input
that fails to parse yields a message with the `XML syntax error: ` prefix.
(The source's `except Exception` arm, which maps any other internal error
to a `Validation error:` message, has no counterpart here: no later step
of the checker can fail.) -/
theorem validate_total_and_prefixed (s : String) :
    (validate_musicxml s = (true, none) ∨
      ∃ m, validate_musicxml s = (false, some m)) ∧
    (∀ e, parseXML s = Except.error e →
      validate_musicxml s = (false, some ("XML syntax error: " ++ e))) := by
  constructor
  · unfold validate_musicxml
    cases parseXML s with
    | error e => exact Or.inr ⟨_, rfl⟩
    | ok root =>
      dsimp only
      split
      · exact Or.inr ⟨_, rfl⟩
      · cases hf : root.findChild "part-list" with
        | none => exact Or.inr ⟨_, rfl⟩
        | some pl =>
          dsimp only
          split
          · exact Or.inr ⟨_, rfl⟩
          · cases hfd : (root.findall "part").find?
                (fun p => (p.findall "measure").length == 0) with
            | none => exact Or.inl rfl
            | some p => exact Or.inr ⟨_, rfl⟩
  · intro e he
    unfold validate_musicxml
    rw [he]

/-- Witness for `validate_total_and_prefixed` at the unparseable input
`"<"`. -/
theorem validate_total_and_prefixed_witness :
    validate_musicxml "<" =
      (false, some ("XML syntax error: " ++ "invalid token")) :=
  (validate_total_and_prefixed "<").2 "invalid token" (by decide)

/-! ### Tokenizer fuel irrelevance -/

theorem skipPI_length : ∀ (cs r : List Char), skipPI cs = some r → r.length < cs.length := by
  intro cs
  induction cs with
  | nil => intro r h; cases h
  | cons c rest ih =>
    intro r h
    simp only [skipPI] at h
    split at h
    next hc =>
      cases h
      have : rest.tail.length ≤ rest.length := by cases rest <;> simp
      simp only [List.length_cons]
      omega
    next hc =>
      have := ih r h
      simp only [List.length_cons]
      omega

theorem skipDecl_length : ∀ (cs r : List Char), skipDecl cs = some r → r.length < cs.length := by
  intro cs r h
  simp only [skipDecl] at h
  cases hd : cs.dropWhile (fun c => c != '>') with
  | nil => rw [hd] at h; cases h
  | cons d tail =>
    rw [hd] at h
    cases h
    have h1 : (cs.dropWhile (fun c => c != '>')).length ≤ cs.length :=
      (List.dropWhile_sublist _).length_le
    rw [hd] at h1
    simp only [List.length_cons] at h1
    omega

theorem parseAttrsAux_length :
    ∀ (f : Nat) (cs : List Char) (res : List (String × String) × Bool × List Char),
    parseAttrsAux f cs = some res → res.2.2.length ≤ cs.length := by
  intro f
  induction f with
  | zero => intro cs res h; cases h
  | succ f ih =>
    intro cs res h
    have hdw : (cs.dropWhile isSpaceChar).length ≤ cs.length :=
      (List.dropWhile_sublist _).length_le
    have htl : (cs.dropWhile isSpaceChar).tail.length ≤ (cs.dropWhile isSpaceChar).length := by
      cases cs.dropWhile isSpaceChar <;> simp
    simp only [parseAttrsAux] at h
    split at h
    next hc =>
      cases h
      simp only []
      omega
    · split at h
      next hc =>
        cases h
        have : (cs.dropWhile isSpaceChar).tail.tail.length ≤
            (cs.dropWhile isSpaceChar).tail.length := by
          cases (cs.dropWhile isSpaceChar).tail <;> simp
        simp only []
        omega
      · split at h
        next hc => cases h
        · split at h
          next heq =>
            -- the '=' branch: match on tail.head?
            cases hq : ((cs.dropWhile isSpaceChar).dropWhile isNameChar).tail.head? with
            | none => rw [hq] at h; cases h
            | some q =>
              rw [hq] at h
              dsimp only at h
              split at h
              next hquote =>
                split at h
                next hempty => cases h
                next hempty =>
                  rw [Option.map_eq_some'] at h
                  obtain ⟨r1, hr1, hres⟩ := h
                  have hlen := ih _ _ hr1
                  have h1 : ((cs.dropWhile isSpaceChar).dropWhile isNameChar).length ≤
                      (cs.dropWhile isSpaceChar).length :=
                    (List.dropWhile_sublist _).length_le
                  have h2 : ((cs.dropWhile isSpaceChar).dropWhile isNameChar).tail.length ≤
                      ((cs.dropWhile isSpaceChar).dropWhile isNameChar).length := by
                    cases (cs.dropWhile isSpaceChar).dropWhile isNameChar <;> simp
                  have h3 : ((cs.dropWhile isSpaceChar).dropWhile isNameChar).tail.tail.length ≤
                      ((cs.dropWhile isSpaceChar).dropWhile isNameChar).tail.length := by
                    cases ((cs.dropWhile isSpaceChar).dropWhile isNameChar).tail <;> simp
                  have h4 : (((cs.dropWhile isSpaceChar).dropWhile isNameChar).tail.tail.dropWhile
                      (fun c => c != q)).length ≤
                      ((cs.dropWhile isSpaceChar).dropWhile isNameChar).tail.tail.length :=
                    (List.dropWhile_sublist _).length_le
                  have h5 : (((cs.dropWhile isSpaceChar).dropWhile isNameChar).tail.tail.dropWhile
                      (fun c => c != q)).tail.length ≤
                      (((cs.dropWhile isSpaceChar).dropWhile isNameChar).tail.tail.dropWhile
                      (fun c => c != q)).length := by
                    cases ((cs.dropWhile isSpaceChar).dropWhile isNameChar).tail.tail.dropWhile
                      (fun c => c != q) <;> simp
                  rw [← hres]
                  simp only []
                  omega
              next hquote => cases h
          next heq => cases h

theorem tokenizeAux_irrel : ∀ (f g : Nat) (cs : List Char),
    cs.length < f → cs.length < g → tokenizeAux f cs = tokenizeAux g cs := by
  intro f
  induction f with
  | zero => intro g cs hf _; omega
  | succ f ih =>
    intro g cs hf hg
    cases g with
    | zero => omega
    | succ g =>
      cases cs with
      | nil => rfl
      | cons c rest =>
        simp only [List.length_cons] at hf hg
        have htl : rest.tail.length ≤ rest.length := by cases rest <;> simp
        simp only [tokenizeAux]
        by_cases hc : c = '<'
        · rw [if_pos hc, if_pos hc]
          by_cases h1 : rest.head? = some '?'
          · rw [if_pos h1, if_pos h1]
            cases hsp : skipPI rest.tail with
            | none => rfl
            | some r2 =>
              have hl2 := skipPI_length rest.tail r2 hsp
              show tokenizeAux f r2 = tokenizeAux g r2
              exact ih g r2 (by omega) (by omega)
          · rw [if_neg h1, if_neg h1]
            by_cases h2 : rest.head? = some '!'
            · rw [if_pos h2, if_pos h2]
              cases hsd : skipDecl rest.tail with
              | none => rfl
              | some r2 =>
                have hl2 := skipDecl_length rest.tail r2 hsd
                show tokenizeAux f r2 = tokenizeAux g r2
                exact ih g r2 (by omega) (by omega)
            · rw [if_neg h2, if_neg h2]
              by_cases h3 : rest.head? = some '/'
              · rw [if_pos h3, if_pos h3]
                by_cases h4 : (rest.tail.takeWhile isNameChar).isEmpty = true
                · rw [if_pos h4, if_pos h4]
                · rw [if_neg h4, if_neg h4]
                  by_cases h5 : ((rest.tail.dropWhile isNameChar).dropWhile
                      isSpaceChar).head? = some '>'
                  · rw [if_pos h5, if_pos h5]
                    have ha : ((rest.tail.dropWhile isNameChar).dropWhile
                        isSpaceChar).length ≤ rest.tail.length :=
                      le_trans (List.dropWhile_sublist _).length_le
                        (List.dropWhile_sublist _).length_le
                    have hb : ((rest.tail.dropWhile isNameChar).dropWhile
                        isSpaceChar).tail.length ≤
                        ((rest.tail.dropWhile isNameChar).dropWhile
                        isSpaceChar).length := by
                      cases (rest.tail.dropWhile isNameChar).dropWhile isSpaceChar <;> simp
                    rw [ih g (((rest.tail.dropWhile isNameChar).dropWhile
                      isSpaceChar).tail) (by omega) (by omega)]
                  · rw [if_neg h5, if_neg h5]
              · rw [if_neg h3, if_neg h3]
                by_cases h6 : (rest.takeWhile isNameChar).isEmpty = true
                · rw [if_pos h6, if_pos h6]
                · rw [if_neg h6, if_neg h6]
                  cases hpa : parseAttrsAux rest.length (rest.dropWhile isNameChar) with
                  | none => rfl
                  | some att =>
                    have hl := parseAttrsAux_length _ _ _ hpa
                    have ha : (rest.dropWhile isNameChar).length ≤ rest.length :=
                      (List.dropWhile_sublist _).length_le
                    dsimp only
                    rw [ih g att.2.2 (by omega) (by omega)]
        · rw [if_neg hc, if_neg hc]
          exact ih g rest (by omega) (by omega)

/-! ### Escaping facts -/


theorem escAttrChar_no_specials (c : Char) :
    ∀ d ∈ escAttrChar c, d ≠ '"' ∧ d ≠ '<' := by
  intro d hd
  unfold escAttrChar at hd
  split at hd
  · simp only [String.toList] at hd
    simp at hd
    rcases hd with rfl | rfl | rfl | rfl | rfl <;> decide
  split at hd
  · simp at hd
    rcases hd with rfl | rfl | rfl | rfl <;> decide
  split at hd
  · simp at hd
    rcases hd with rfl | rfl | rfl | rfl <;> decide
  split at hd
  · simp at hd
    rcases hd with rfl | rfl | rfl | rfl | rfl | rfl <;> decide
  next h1 h2 h3 h4 =>
    simp at hd
    subst hd
    exact ⟨h4, h2⟩

theorem escTextChar_no_lt (c : Char) : ∀ d ∈ escTextChar c, d ≠ '<' := by
  intro d hd
  unfold escTextChar at hd
  split at hd
  · simp at hd
    rcases hd with rfl | rfl | rfl | rfl | rfl <;> decide
  split at hd
  · simp at hd
    rcases hd with rfl | rfl | rfl | rfl <;> decide
  split at hd
  · simp at hd
    rcases hd with rfl | rfl | rfl | rfl <;> decide
  next h1 h2 h3 =>
    simp at hd
    subst hd
    exact h2

theorem decodeEntities_cons_ne (c : Char) (rest : List Char) (hc : c ≠ '&') :
    decodeEntities (c :: rest) = c :: decodeEntities rest := by
  conv_lhs => unfold decodeEntities
  split
  next heq => cases heq
  next r heq => exact absurd (List.cons.inj heq).1 hc
  next r heq => exact absurd (List.cons.inj heq).1 hc
  next r heq => exact absurd (List.cons.inj heq).1 hc
  next r heq => exact absurd (List.cons.inj heq).1 hc
  next c2 r hno1 hno2 hno3 hno4 heq =>
    obtain ⟨rfl, rfl⟩ := List.cons.inj heq
    rfl

theorem decode_escAttr_list (l : List Char) :
    decodeEntities ((l.map escAttrChar).flatten) = l := by
  induction l with
  | nil => rfl
  | cons c rest ih =>
    simp only [List.map_cons, List.flatten_cons]
    by_cases h1 : c = '&'
    · subst h1
      show decodeEntities ('&' :: 'a' :: 'm' :: 'p' :: ';' ::
        (List.map escAttrChar rest).flatten) = _
      rw [show ∀ x, decodeEntities ('&' :: 'a' :: 'm' :: 'p' :: ';' :: x) =
        '&' :: decodeEntities x from fun x => rfl]
      rw [ih]
    · by_cases h2 : c = '<'
      · subst h2
        show decodeEntities ('&' :: 'l' :: 't' :: ';' ::
          (List.map escAttrChar rest).flatten) = _
        rw [show ∀ x, decodeEntities ('&' :: 'l' :: 't' :: ';' :: x) =
          '<' :: decodeEntities x from fun x => rfl]
        rw [ih]
      · by_cases h3 : c = '>'
        · subst h3
          show decodeEntities ('&' :: 'g' :: 't' :: ';' ::
            (List.map escAttrChar rest).flatten) = _
          rw [show ∀ x, decodeEntities ('&' :: 'g' :: 't' :: ';' :: x) =
            '>' :: decodeEntities x from fun x => rfl]
          rw [ih]
        · by_cases h4 : c = '"'
          · subst h4
            show decodeEntities ('&' :: 'q' :: 'u' :: 'o' :: 't' :: ';' ::
              (List.map escAttrChar rest).flatten) = _
            rw [show ∀ x, decodeEntities ('&' :: 'q' :: 'u' :: 'o' :: 't' :: ';' :: x) =
              '"' :: decodeEntities x from fun x => rfl]
            rw [ih]
          · have hesc : escAttrChar c = [c] := by
              unfold escAttrChar
              rw [if_neg h1, if_neg h2, if_neg h3, if_neg h4]
            rw [hesc]
            simp only [List.cons_append, List.nil_append]
            rw [decodeEntities_cons_ne c _ h1, ih]

/-! ### Token rendering lemmas -/

theorem isNameChar_ne (c : Char) (h : isNameChar c = true) :
    c ≠ '<' ∧ c ≠ '>' ∧ c ≠ '/' ∧ c ≠ '=' ∧ c ≠ '"' ∧ c ≠ '\'' ∧
    c ≠ '?' ∧ c ≠ '!' ∧ isSpaceChar c = false := by
  simp only [isNameChar, Bool.not_eq_true', Bool.or_eq_false_iff,
    beq_eq_false_iff_ne] at h
  obtain ⟨⟨⟨⟨⟨⟨⟨⟨h1, h2⟩, h3⟩, h4⟩, h5⟩, h6⟩, h7⟩, h8⟩, h9⟩ := h
  exact ⟨h1, h2, h3, h4, h5, h6, h7, h8, h9⟩

theorem takeWhile_append_pos {α : Type} (p : α → Bool) (xs ys : List α)
    (h : ∀ x ∈ xs, p x = true) : (xs ++ ys).takeWhile p = xs ++ ys.takeWhile p := by
  induction xs with
  | nil => simp
  | cons a as ih => simp_all [List.takeWhile_cons]

theorem dropWhile_append_pos {α : Type} (p : α → Bool) (xs ys : List α)
    (h : ∀ x ∈ xs, p x = true) : (xs ++ ys).dropWhile p = ys.dropWhile p := by
  induction xs with
  | nil => simp
  | cons a as ih => simp_all [List.dropWhile_cons]

theorem escAttr_all_ne_quote (v : String) : ∀ d ∈ escAttr v, (d != '"') = true := by
  intro d hd
  simp only [escAttr, List.mem_flatten] at hd
  obtain ⟨l, hl, hdl⟩ := hd
  simp only [List.mem_map] at hl
  obtain ⟨c, _, rfl⟩ := hl
  have := (escAttrChar_no_specials c d hdl).1
  simpa using this

theorem parseAttrs_render (ats : List (String × String)) :
    ∀ (f : Nat) (cs : List Char), ats.length < f →
    (∀ p ∈ ats, wfName p.1 = true) →
    parseAttrsAux f (serializeAttrs ats ++ '>' :: cs) = some (ats, false, cs) ∧
    parseAttrsAux f (serializeAttrs ats ++ '/' :: '>' :: cs) = some (ats, true, cs) := by
  induction ats with
  | nil =>
    intro f cs hf _
    cases f with
    | zero => omega
    | succ f =>
      constructor
      · simp only [serializeAttrs, List.nil_append, parseAttrsAux]
        rw [List.dropWhile_cons_of_neg (by decide)]
        simp
      · simp only [serializeAttrs, List.nil_append, parseAttrsAux]
        rw [List.dropWhile_cons_of_neg (by decide)]
        simp
  | cons a rest ih =>
    intro f cs hf hwf
    cases f with
    | zero => omega
    | succ f =>
      obtain ⟨n, v⟩ := a
      have hwfn : wfName n = true := hwf (n, v) (List.mem_cons_self _ _)
      simp only [wfName, Bool.and_eq_true, Bool.not_eq_true', List.isEmpty_eq_false,
        List.all_eq_true] at hwfn
      obtain ⟨hne, hall⟩ := hwfn
      have main : ∀ (tcs : List Char) (b : Bool),
          parseAttrsAux f (serializeAttrs rest ++ tcs) = some (rest, b, cs) →
          parseAttrsAux (f + 1) (serializeAttrs ((n, v) :: rest) ++ tcs) =
            some ((n, v) :: rest, b, cs) := by
        intro tcs b hrec
        rcases hnl : n.toList with _ | ⟨hd, tl⟩
        · exact absurd hnl hne
        have hhd : isNameChar hd = true := by
          rw [hnl] at hall
          exact hall hd (List.mem_cons_self _ _)
        obtain ⟨_, hgt, hsl, _, _, _, _, _, hsp⟩ := isNameChar_ne hd hhd
        have htlname : ∀ c ∈ tl, isNameChar c = true := by
          rw [hnl] at hall
          exact fun c hc => hall c (List.mem_cons_of_mem hd hc)
        simp only [serializeAttrs, hnl, List.cons_append, List.append_assoc]
        simp only [parseAttrsAux]
        rw [List.dropWhile_cons_of_pos (by decide : isSpaceChar ' ' = true)]
        rw [List.dropWhile_cons_of_neg (by simp [hsp] : ¬ isSpaceChar hd = true)]
        rw [if_neg (by simp [hgt])]
        rw [if_neg (by simp [hsl])]
        have htake : ((hd :: (tl ++ ('=' :: '"' :: (escAttr v ++ '"' ::
            (serializeAttrs rest ++ tcs))))).takeWhile isNameChar) = hd :: tl := by
          rw [List.takeWhile_cons_of_pos hhd]
          rw [takeWhile_append_pos isNameChar tl _ htlname]
          rw [List.takeWhile_cons_of_neg (by decide : ¬ isNameChar '=' = true)]
          rw [List.append_nil]
        have hdrop : ((hd :: (tl ++ ('=' :: '"' :: (escAttr v ++ '"' ::
            (serializeAttrs rest ++ tcs))))).dropWhile isNameChar) =
            '=' :: '"' :: (escAttr v ++ '"' :: (serializeAttrs rest ++ tcs)) := by
          rw [List.dropWhile_cons_of_pos hhd]
          rw [dropWhile_append_pos isNameChar tl _ htlname]
          rw [List.dropWhile_cons_of_neg (by decide : ¬ isNameChar '=' = true)]
        have hdropq : ((escAttr v ++ '"' :: (serializeAttrs rest ++ tcs)).dropWhile
            (fun c => c != '"')) = '"' :: (serializeAttrs rest ++ tcs) := by
          rw [dropWhile_append_pos _ _ _ (escAttr_all_ne_quote v)]
          rw [List.dropWhile_cons_of_neg (by decide)]
        have htakeq : ((escAttr v ++ '"' :: (serializeAttrs rest ++ tcs)).takeWhile
            (fun c => c != '"')) = escAttr v := by
          rw [takeWhile_append_pos _ _ _ (escAttr_all_ne_quote v)]
          rw [List.takeWhile_cons_of_neg (by decide)]
          rw [List.append_nil]
        rw [htake, hdrop]
        rw [if_neg (by simp)]
        simp only [List.head?_cons, List.tail_cons]
        rw [if_pos trivial, if_pos (Or.inl trivial)]
        rw [hdropq]
        rw [if_neg (by simp)]
        dsimp only [List.tail_cons]
        rw [hrec]
        simp only [Option.map_some']
        rw [htakeq]
        rw [show (decodeEntities (escAttr v)).asString = v from by
          show (decodeEntities ((v.toList.map escAttrChar).flatten)).asString = v
          rw [decode_escAttr_list]
          exact rfl]
        rw [show (hd :: tl).asString = n from by rw [← hnl]; exact rfl]
      constructor
      · exact main ('>' :: cs) false
          (ih f cs (by simpa using Nat.lt_of_succ_lt_succ hf) 
            (fun p hp => hwf p (List.mem_cons_of_mem _ hp))).1
      · exact main ('/' :: '>' :: cs) true
          (ih f cs (by simpa using Nat.lt_of_succ_lt_succ hf)
            (fun p hp => hwf p (List.mem_cons_of_mem _ hp))).2

theorem wfName_spec (t : String) (h : wfName t = true) :
    t.toList ≠ [] ∧ ∀ c ∈ t.toList, isNameChar c = true := by
  simp only [wfName, Bool.and_eq_true, Bool.not_eq_true', List.isEmpty_eq_false,
    List.all_eq_true] at h
  exact h

theorem serializeAttrs_length_ge (a : List (String × String)) :
    a.length ≤ (serializeAttrs a).length := by
  induction a with
  | nil => simp [serializeAttrs]
  | cons p ps ih =>
    obtain ⟨n, v⟩ := p
    simp only [serializeAttrs, List.length_cons, List.length_append]
    omega

theorem serializeAttrs_stop (a : List (String × String)) (z : List Char)
    (hz : z.head? = some '>' ∨ z.head? = some '/') :
    (serializeAttrs a ++ z).takeWhile isNameChar = [] ∧
    (serializeAttrs a ++ z).dropWhile isNameChar = serializeAttrs a ++ z := by
  cases a with
  | nil =>
    simp only [serializeAttrs, List.nil_append]
    cases z with
    | nil => simp at hz
    | cons c zr =>
      simp only [List.head?_cons] at hz
      rcases hz with h | h <;> (injection h with h; subst h) <;>
        exact ⟨List.takeWhile_cons_of_neg (by decide),
          List.dropWhile_cons_of_neg (by decide)⟩
  | cons p ps =>
    obtain ⟨n, v⟩ := p
    simp only [serializeAttrs, List.cons_append]
    exact ⟨List.takeWhile_cons_of_neg (by decide),
      List.dropWhile_cons_of_neg (by decide)⟩

theorem tokenize_cons_text (c : Char) (cs : List Char) (hc : c ≠ '<') :
    tokenize (c :: cs) = tokenize cs := by
  show tokenizeAux ((c :: cs).length + 1) (c :: cs) = _
  simp only [List.length_cons]
  simp only [tokenizeAux]
  rw [if_neg hc]
  rfl

theorem tokenize_append_text (txt cs : List Char) (h : ∀ c ∈ txt, c ≠ '<') :
    tokenize (txt ++ cs) = tokenize cs := by
  induction txt with
  | nil => simp
  | cons c rest ih =>
    rw [List.cons_append, tokenize_cons_text c _ (h c (List.mem_cons_self _ _)),
      ih (fun d hd => h d (List.mem_cons_of_mem c hd))]

theorem tokenize_open_tag (t : String) (a : List (String × String)) (rest : List Char)
    (hwt : wfName t = true) (hwa : wfAttrs a = true) :
    tokenize ('<' :: (t.toList ++ (serializeAttrs a ++ '>' :: rest))) =
      (tokenize rest).map (fun ts => Tok.openT t a :: ts) := by
  obtain ⟨hne, hall⟩ := wfName_spec t hwt
  rcases hnl : t.toList with _ | ⟨hd, tl⟩
  · exact absurd hnl hne
  have hhd : isNameChar hd = true := by
    rw [hnl] at hall
    exact hall hd (List.mem_cons_self _ _)
  obtain ⟨hlt, hgt, hsl, _, _, _, hqm, hbang, hsp⟩ := isNameChar_ne hd hhd
  have htlname : ∀ c ∈ tl, isNameChar c = true := by
    rw [hnl] at hall
    exact fun c hc => hall c (List.mem_cons_of_mem hd hc)
  have hstop := serializeAttrs_stop a ('>' :: rest) (Or.inl rfl)
  show tokenizeAux _ _ = _
  simp only [hnl, List.cons_append, List.length_cons]
  simp only [tokenizeAux]
  rw [if_pos trivial]
  simp only [List.head?_cons, List.tail_cons]
  rw [if_neg (by simp [hqm]), if_neg (by simp [hbang]), if_neg (by simp [hsl])]
  have htake : (hd :: (tl ++ (serializeAttrs a ++ '>' :: rest))).takeWhile
      isNameChar = hd :: tl := by
    rw [List.takeWhile_cons_of_pos hhd, takeWhile_append_pos _ _ _ htlname,
      hstop.1, List.append_nil]
  have hdrop : (hd :: (tl ++ (serializeAttrs a ++ '>' :: rest))).dropWhile
      isNameChar = serializeAttrs a ++ '>' :: rest := by
    rw [List.dropWhile_cons_of_pos hhd, dropWhile_append_pos _ _ _ htlname,
      hstop.2]
  rw [htake, hdrop]
  rw [if_neg (by simp)]
  have hwa2 : ∀ p ∈ a, wfName p.1 = true := by
    simpa [wfAttrs, List.all_eq_true] using hwa
  have hfuel : a.length < (tl ++ (serializeAttrs a ++ '>' :: rest)).length + 1 := by
    have := serializeAttrs_length_ge a
    simp only [List.length_append, List.length_cons]
    omega
  simp only [List.length_cons]
  rw [(parseAttrs_render a _ rest hfuel hwa2).1]
  dsimp only
  rw [show (hd :: tl).asString = t from by rw [← hnl]; exact rfl]
  rw [tokenizeAux_irrel _ (rest.length + 1) rest
    (by simp only [List.length_append, List.length_cons]; omega) (Nat.lt_succ_self _)]
  rfl

theorem tokenize_self_tag (t : String) (a : List (String × String)) (rest : List Char)
    (hwt : wfName t = true) (hwa : wfAttrs a = true) :
    tokenize ('<' :: (t.toList ++ (serializeAttrs a ++ '/' :: '>' :: rest))) =
      (tokenize rest).map (fun ts => Tok.selfT t a :: ts) := by
  obtain ⟨hne, hall⟩ := wfName_spec t hwt
  rcases hnl : t.toList with _ | ⟨hd, tl⟩
  · exact absurd hnl hne
  have hhd : isNameChar hd = true := by
    rw [hnl] at hall
    exact hall hd (List.mem_cons_self _ _)
  obtain ⟨hlt, hgt, hsl, _, _, _, hqm, hbang, hsp⟩ := isNameChar_ne hd hhd
  have htlname : ∀ c ∈ tl, isNameChar c = true := by
    rw [hnl] at hall
    exact fun c hc => hall c (List.mem_cons_of_mem hd hc)
  have hstop := serializeAttrs_stop a ('/' :: '>' :: rest) (Or.inr rfl)
  show tokenizeAux _ _ = _
  simp only [hnl, List.cons_append, List.length_cons]
  simp only [tokenizeAux]
  rw [if_pos trivial]
  simp only [List.head?_cons, List.tail_cons]
  rw [if_neg (by simp [hqm]), if_neg (by simp [hbang]), if_neg (by simp [hsl])]
  have htake : (hd :: (tl ++ (serializeAttrs a ++ '/' :: '>' :: rest))).takeWhile
      isNameChar = hd :: tl := by
    rw [List.takeWhile_cons_of_pos hhd, takeWhile_append_pos _ _ _ htlname,
      hstop.1, List.append_nil]
  have hdrop : (hd :: (tl ++ (serializeAttrs a ++ '/' :: '>' :: rest))).dropWhile
      isNameChar = serializeAttrs a ++ '/' :: '>' :: rest := by
    rw [List.dropWhile_cons_of_pos hhd, dropWhile_append_pos _ _ _ htlname,
      hstop.2]
  rw [htake, hdrop]
  rw [if_neg (by simp)]
  have hwa2 : ∀ p ∈ a, wfName p.1 = true := by
    simpa [wfAttrs, List.all_eq_true] using hwa
  have hfuel : a.length < (tl ++ (serializeAttrs a ++ '/' :: '>' :: rest)).length + 1 := by
    have := serializeAttrs_length_ge a
    simp only [List.length_append, List.length_cons]
    omega
  simp only [List.length_cons]
  rw [(parseAttrs_render a _ rest hfuel hwa2).2]
  dsimp only
  rw [show (hd :: tl).asString = t from by rw [← hnl]; exact rfl]
  rw [tokenizeAux_irrel _ (rest.length + 1) rest
    (by simp only [List.length_append, List.length_cons]; omega) (Nat.lt_succ_self _)]
  rfl

theorem tokenize_close_tag (t : String) (rest : List Char)
    (hwt : wfName t = true) :
    tokenize ('<' :: '/' :: (t.toList ++ '>' :: rest)) =
      (tokenize rest).map (fun ts => Tok.closeT t :: ts) := by
  obtain ⟨hne, hall⟩ := wfName_spec t hwt
  rcases hnl : t.toList with _ | ⟨hd, tl⟩
  · exact absurd hnl hne
  have hhd : isNameChar hd = true := by
    rw [hnl] at hall
    exact hall hd (List.mem_cons_self _ _)
  obtain ⟨hlt, hgt, hsl, _, _, _, hqm, hbang, hsp⟩ := isNameChar_ne hd hhd
  have htlname : ∀ c ∈ tl, isNameChar c = true := by
    rw [hnl] at hall
    exact fun c hc => hall c (List.mem_cons_of_mem hd hc)
  show tokenizeAux _ _ = _
  simp only [hnl, List.cons_append, List.length_cons]
  simp only [tokenizeAux]
  rw [if_pos trivial]
  simp only [List.head?_cons, List.tail_cons]
  rw [if_neg (by decide), if_neg (by decide), if_pos trivial]
  have htake : (hd :: (tl ++ '>' :: rest)).takeWhile isNameChar = hd :: tl := by
    rw [List.takeWhile_cons_of_pos hhd, takeWhile_append_pos _ _ _ htlname,
      List.takeWhile_cons_of_neg (by decide), List.append_nil]
  have hdrop : (hd :: (tl ++ '>' :: rest)).dropWhile isNameChar = '>' :: rest := by
    rw [List.dropWhile_cons_of_pos hhd, dropWhile_append_pos _ _ _ htlname,
      List.dropWhile_cons_of_neg (by decide)]
  rw [htake, hdrop]
  rw [if_neg (by simp)]
  rw [List.dropWhile_cons_of_neg (by decide : ¬ isSpaceChar '>' = true)]
  dsimp only [List.head?_cons, List.tail_cons]
  rw [if_pos rfl]
  rw [show (hd :: tl).asString = t from by rw [← hnl]; exact rfl]
  rw [tokenizeAux_irrel _ (rest.length + 1) rest
    (by simp only [List.length_append, List.length_cons]; omega) (Nat.lt_succ_self _)]
  rfl

theorem escText_all_ne_lt (v : String) : ∀ d ∈ escText v, d ≠ '<' := by
  intro d hd
  simp only [escText, List.mem_flatten] at hd
  obtain ⟨l, hl, hdl⟩ := hd
  simp only [List.mem_map] at hl
  obtain ⟨c, _, rfl⟩ := hl
  exact escTextChar_no_lt c d hdl

theorem indentChars_ne_lt (d : Nat) : ∀ c ∈ indentChars d, c ≠ '<' := by
  intro c hc
  simp only [indentChars, List.mem_replicate] at hc
  rw [hc.2]
  decide

mutual
theorem tokenize_serializeElem (d : Nat) (e : XElem) (cs : List Char)
    (hwf : wfElem e = true) :
    tokenize (serializeElem d e ++ cs) =
      (tokenize cs).map (fun ts => flattenElem e ++ ts) := by
  rcases e with ⟨t, a, x, cs0⟩
  have hw : wfName t = true ∧ wfAttrs a = true ∧ wfList cs0 = true := by
    simpa [wfElem, Bool.and_eq_true, and_assoc] using hwf
  by_cases hnil : cs0 = XList.nil
  · by_cases hx : x = ""
    · subst hnil hx
      simp only [serializeElem, flattenElem, eq_self_iff_true, and_self, if_true,
        List.append_assoc, List.cons_append, List.nil_append]
      rw [tokenize_append_text _ _ (indentChars_ne_lt d)]
      rw [tokenize_self_tag t a ('\n' :: cs) hw.1 hw.2.1]
      rw [tokenize_cons_text '\n' cs (by decide)]
    · subst hnil
      simp only [serializeElem, flattenElem, eq_self_iff_true, true_and,
        if_neg hx, List.append_assoc, List.cons_append, List.nil_append]
      rw [if_pos trivial]
      simp only [List.append_assoc, List.cons_append, List.nil_append]
      rw [tokenize_append_text _ _ (indentChars_ne_lt d)]
      rw [tokenize_open_tag t a _ hw.1 hw.2.1]
      rw [tokenize_append_text _ _ (escText_all_ne_lt x)]
      rw [tokenize_close_tag t _ hw.1]
      rw [tokenize_cons_text '\n' cs (by decide)]
      simp only [flattenList, Option.map_map, List.nil_append]
      cases tokenize cs <;> simp
  · simp only [serializeElem, flattenElem, if_neg hnil,
      if_neg (by simp [hnil] : ¬ (cs0 = XList.nil ∧ x = "")),
      List.append_assoc, List.cons_append, List.nil_append]
    rw [tokenize_append_text _ _ (indentChars_ne_lt d)]
    rw [tokenize_open_tag t a _ hw.1 hw.2.1]
    rw [tokenize_cons_text '\n' _ (by decide)]
    rw [tokenize_serializeList (d + 1) cs0 _ hw.2.2]
    rw [tokenize_append_text _ _ (indentChars_ne_lt d)]
    rw [tokenize_close_tag t _ hw.1]
    rw [tokenize_cons_text '\n' cs (by decide)]
    simp only [Option.map_map]
    cases tokenize cs <;> simp

theorem tokenize_serializeList (d : Nat) (l : XList) (cs : List Char)
    (hwf : wfList l = true) :
    tokenize (serializeList d l ++ cs) =
      (tokenize cs).map (fun ts => flattenList l ++ ts) := by
  cases l with
  | nil =>
    simp only [serializeList, flattenList, List.nil_append]
    cases tokenize cs <;> simp
  | cons e rest =>
    have hw : wfElem e = true ∧ wfList rest = true := by
      simpa [wfList, Bool.and_eq_true] using hwf
    simp only [serializeList, flattenList, List.append_assoc]
    rw [tokenize_serializeElem d e _ hw.1]
    rw [tokenize_serializeList d rest cs hw.2]
    simp only [Option.map_map]
    cases tokenize cs <;> simp
end

theorem listToX_toList : ∀ (l : XList), listToX l.toList = l
  | .nil => rfl
  | .cons e rest => by
    simp only [XList.toList, listToX]
    rw [listToX_toList rest]

mutual
theorem build_flattenElem (e : XElem) (rest : List Tok) (t : String)
    (a : List (String × String)) (cs : List XElem) (st : List Frame) :
    build (flattenElem e ++ rest) ((t, a, cs) :: st) =
      build rest ((t, a, cs ++ [stripElem e]) :: st) := by
  rcases e with ⟨t0, a0, x0, cs0⟩
  by_cases h : cs0 = XList.nil ∧ x0 = ""
  · obtain ⟨h1, h2⟩ := h
    subst h1
    subst h2
    rfl
  · simp only [flattenElem, if_neg h, List.cons_append, List.append_assoc]
    show build (flattenList cs0 ++ ([Tok.closeT t0] ++ rest))
      ((t0, a0, []) :: (t, a, cs) :: st) = _
    rw [build_flattenList cs0 ([Tok.closeT t0] ++ rest) t0 a0 [] ((t, a, cs) :: st)]
    simp only [List.cons_append, List.nil_append, build]
    rw [if_pos trivial]
    rw [listToX_toList]
    rfl
theorem build_flattenList (l : XList) (rest : List Tok) (t : String)
    (a : List (String × String)) (cs : List XElem) (st : List Frame) :
    build (flattenList l ++ rest) ((t, a, cs) :: st) =
      build rest ((t, a, cs ++ (stripList l).toList) :: st) := by
  cases l with
  | nil => simp [flattenList, stripList, XList.toList]
  | cons e rest2 =>
    simp only [flattenList, stripList, XList.toList, List.append_assoc]
    rw [build_flattenElem e _ t a cs st]
    rw [build_flattenList rest2 rest t a (cs ++ [stripElem e]) st]
    simp [List.append_assoc]
end

theorem build_flattenElem_root (e : XElem) :
    build (flattenElem e) [] = some (stripElem e) := by
  rcases e with ⟨t, a, x, cs0⟩
  by_cases h : cs0 = XList.nil ∧ x = ""
  · obtain ⟨h1, h2⟩ := h
    subst h1
    subst h2
    rfl
  · simp only [flattenElem, if_neg h]
    show build (flattenList cs0 ++ [Tok.closeT t]) ((t, a, []) :: []) = _
    rw [build_flattenList cs0 [Tok.closeT t] t a [] []]
    simp only [List.nil_append, build]
    rw [if_pos trivial]
    rw [listToX_toList]
    rfl

theorem skipPI_through (body cs : List Char) (h : ∀ c ∈ body, c ≠ '?') :
    skipPI (body ++ '?' :: '>' :: cs) = some cs := by
  induction body with
  | nil => simp [skipPI]
  | cons b bs ih =>
    simp only [List.cons_append, skipPI]
    rw [if_neg (by simp [h b (List.mem_cons_self _ _)])]
    exact ih (fun c hc => h c (List.mem_cons_of_mem b hc))

theorem skipDecl_through (body cs : List Char) (h : ∀ c ∈ body, c ≠ '>') :
    skipDecl (body ++ '>' :: cs) = some cs := by
  simp only [skipDecl]
  rw [dropWhile_append_pos _ _ _ (fun c hc => by simp [h c hc])]
  rw [List.dropWhile_cons_of_neg (by simp)]

theorem tokenize_pi (body cs : List Char) (h : ∀ c ∈ body, c ≠ '?') :
    tokenize ('<' :: '?' :: (body ++ '?' :: '>' :: cs)) = tokenize cs := by
  show tokenizeAux _ _ = _
  simp only [List.length_cons]
  simp only [tokenizeAux]
  rw [if_pos trivial]
  simp only [List.head?_cons, List.tail_cons]
  rw [if_pos trivial]
  rw [skipPI_through body cs h]
  show tokenizeAux _ cs = _
  rw [tokenizeAux_irrel _ (cs.length + 1) cs
    (by simp only [List.length_append, List.length_cons]; omega) (Nat.lt_succ_self _)]
  rfl

theorem tokenize_decl_tag (body cs : List Char) (h : ∀ c ∈ body, c ≠ '>') :
    tokenize ('<' :: '!' :: (body ++ '>' :: cs)) = tokenize cs := by
  show tokenizeAux _ _ = _
  simp only [List.length_cons]
  simp only [tokenizeAux]
  rw [if_pos trivial]
  simp only [List.head?_cons, List.tail_cons]
  rw [if_neg (by decide), if_pos trivial]
  rw [skipDecl_through body cs h]
  show tokenizeAux _ cs = _
  rw [tokenizeAux_irrel _ (cs.length + 1) cs
    (by simp only [List.length_append, List.length_cons]; omega) (Nat.lt_succ_self _)]
  rfl

set_option maxHeartbeats 1000000 in
theorem tokenize_xmlDecl (cs : List Char) :
    tokenize (xmlDeclLine.toList ++ cs) = tokenize cs := by
  have hshape : xmlDeclLine.toList ++ cs =
      '<' :: '?' :: ("xml version=\"1.0\" encoding=\"UTF-8\"".toList ++
        '?' :: '>' :: ('\n' :: cs)) := by
    rw [show xmlDeclLine.toList =
      '<' :: '?' :: ("xml version=\"1.0\" encoding=\"UTF-8\"".toList ++
        ['?', '>', '\n']) from by decide]
    simp [List.append_assoc]
  rw [hshape, tokenize_pi _ _ (by decide), tokenize_cons_text '\n' cs (by decide)]

set_option maxHeartbeats 1000000 in
theorem tokenize_doctype (cs : List Char) :
    tokenize (MUSICXML_DOCTYPE.toList ++ cs) = tokenize cs := by
  have hshape : MUSICXML_DOCTYPE.toList ++ cs =
      '<' :: '!' :: ("DOCTYPE score-partwise PUBLIC \"-//Recordare//DTD MusicXML 4.0 Partwise//EN\" \"http://www.musicxml.org/dtds/partwise.dtd\"".toList ++
        '>' :: cs) := by
    rw [show MUSICXML_DOCTYPE.toList =
      '<' :: '!' :: ("DOCTYPE score-partwise PUBLIC \"-//Recordare//DTD MusicXML 4.0 Partwise//EN\" \"http://www.musicxml.org/dtds/partwise.dtd\"".toList ++
        ['>']) from by decide]
    simp [List.append_assoc]
  rw [hshape, tokenize_decl_tag _ _ (by decide)]

/-! ### The generated score tree is well-formed and validates -/

theorem wfList_listToX (l : List XElem) :
    wfList (listToX l) = l.all wfElem := by
  induction l with
  | nil => rfl
  | cons e rest ih => simp [listToX, wfList, List.all_cons, ih]

theorem stripList_listToX (l : List XElem) :
    (stripList (listToX l)).toList = l.map stripElem := by
  induction l with
  | nil => rfl
  | cons e rest ih => simp [listToX, stripList, XList.toList, ih]

theorem wf_restNote : wfElem restNote = true := by decide

theorem wfElem_xnode (t : String) (a : List (String × String)) (x : String)
    (cs : List XElem) :
    wfElem (xnode t a x cs) = (wfName t && wfAttrs a && cs.all wfElem) := by
  simp [xnode, wfElem, wfList_listToX]

theorem wf_attributesElem (kf : Int) (ts : Nat × Nat) (cS cL : String) :
    wfElem (attributesElem kf ts cS cL) = true := by
  rw [attributesElem, wfElem_xnode]
  simp only [List.all_cons, List.all_nil, wfElem_xnode, wfAttrs]
  decide

theorem wf_directionElem (tempo : Int) : wfElem (directionElem tempo) = true := by
  rw [directionElem, wfElem_xnode]
  simp only [List.all_cons, List.all_nil, wfElem_xnode, wfAttrs]
  decide

theorem wf_scorePartElem (pd : PartDef) : wfElem (scorePartElem pd) = true := by
  rw [scorePartElem, wfElem_xnode]
  simp only [List.all_append, List.all_cons, List.all_nil, wfElem_xnode, wfAttrs]
  rcases pd.abbreviation with _ | ab
  · dsimp only
    decide
  · dsimp only
    by_cases hab : ab ≠ ""
    · rw [if_pos hab]
      simp only [List.all_cons, List.all_nil, wfElem_xnode, wfAttrs]
      decide
    · rw [if_neg hab]
      decide

theorem all_replicate_restNote (n : Nat) :
    (List.replicate n restNote).all wfElem = true := by
  rw [List.all_eq_true]
  intro e he
  rw [List.eq_of_mem_replicate he]
  exact wf_restNote

theorem wf_measureElem (pi2 : Nat) (ts : Nat × Nat) (kf tempo : Int)
    (cS cL : String) (m : Nat) :
    wfElem (measureElem pi2 ts kf tempo cS cL m) = true := by
  rw [measureElem, wfElem_xnode]
  simp only [List.all_append, all_replicate_restNote, Bool.and_true, wfAttrs,
    List.all_cons, List.all_nil]
  have h1 : ((if m = 1 then
      [attributesElem kf ts cS cL] ++
        (if pi2 = 0 then [directionElem tempo] else [])
    else []) : List XElem).all wfElem = true := by
    by_cases hm : m = 1
    · rw [if_pos hm]
      by_cases hp : pi2 = 0
      · rw [if_pos hp]
        simp [wf_attributesElem, wf_directionElem]
      · rw [if_neg hp]
        simp [wf_attributesElem]
    · rw [if_neg hm]
      rfl
  rw [h1, Bool.and_true]
  decide

theorem wf_partBodyElem (i : Nat) (pd : PartDef) (ts : Nat × Nat)
    (kf tempo : Int) (m : Nat) :
    wfElem (partBodyElem i pd ts kf tempo m) = true := by
  rw [partBodyElem, wfElem_xnode]
  have hall : ((List.range m).map (fun j =>
      measureElem i ts kf tempo (get_clef_info (pd.clef.getD "G")).1
        (get_clef_info (pd.clef.getD "G")).2 (j + 1))).all wfElem = true := by
    rw [List.all_eq_true]
    intro e he
    simp only [List.mem_map] at he
    obtain ⟨j, _, rfl⟩ := he
    exact wf_measureElem _ _ _ _ _ _ _
  rw [hall, Bool.and_true]
  simp only [wfAttrs, List.all_cons, List.all_nil]
  decide

theorem wf_scoreTree (title composer : String) (parts : List PartDef)
    (ts : Nat × Nat) (kf tempo : Int) (m : Nat) :
    wfElem (scoreTree title composer parts ts kf tempo m) = true := by
  rw [scoreTree, wfElem_xnode]
  simp only [List.all_append, List.all_cons, List.all_nil, wfElem_xnode, wfAttrs]
  have hpl : (parts.map scorePartElem).all wfElem = true := by
    rw [List.all_eq_true]
    intro e he
    simp only [List.mem_map] at he
    obtain ⟨pd, _, rfl⟩ := he
    exact wf_scorePartElem pd
  have hpb : (parts.mapIdx (fun i pd =>
      partBodyElem i pd ts kf tempo m)).all wfElem = true := by
    rw [List.all_eq_true]
    intro e he
    obtain ⟨i, hi, rfl⟩ := List.exists_of_mem_mapIdx he
    exact wf_partBodyElem _ _ _ _ _ _
  rw [hpl, hpb]
  by_cases hc : composer ≠ ""
  · rw [if_pos hc]
    simp only [List.all_cons, List.all_nil, wfElem_xnode, wfAttrs]
    decide
  · rw [if_neg hc]
    simp only [List.all_nil]
    decide

theorem parseXML_pretty_document (root : XElem) (hwf : wfElem root = true) :
    parseXML (xmlDeclLine ++ MUSICXML_DOCTYPE ++ "\n" ++ tostringPretty root) =
      Except.ok (stripElem root) := by
  unfold parseXML
  have htl : (xmlDeclLine ++ MUSICXML_DOCTYPE ++ "\n" ++ tostringPretty root).toList =
      xmlDeclLine.toList ++ (MUSICXML_DOCTYPE.toList ++
        ('\n' :: (serializeElem 0 root ++ []))) := by
    simp only [tostringPretty]
    show (xmlDeclLine ++ MUSICXML_DOCTYPE ++ "\n" ++
      (serializeElem 0 root).asString).data = _
    simp only [String.data_append]
    simp only [List.append_assoc]
    simp [String.toList, List.asString]
  rw [htl]
  rw [tokenize_xmlDecl, tokenize_doctype, tokenize_cons_text '\n' _ (by decide)]
  rw [tokenize_serializeElem 0 root [] hwf]
  rw [show tokenize [] = some [] from rfl]
  simp only [Option.map_some', List.append_nil]
  rw [build_flattenElem_root]

theorem stripList_listToX_eq (cs : List XElem) :
    stripList (listToX cs) = listToX (cs.map stripElem) := by
  induction cs with
  | nil => rfl
  | cons e rest ih => simp only [listToX, stripList, List.map_cons, ih]

theorem stripElem_xnode (t : String) (a : List (String × String)) (x : String)
    (cs : List XElem) :
    stripElem (xnode t a x cs) = xnode t a "" (cs.map stripElem) := by
  simp only [xnode, stripElem, stripList_listToX_eq]

theorem findall_xnode (t : String) (a : List (String × String)) (x : String)
    (cs : List XElem) (tg : String) :
    (xnode t a x cs).findall tg = cs.filter (fun c => c.tag == tg) := by
  simp only [xnode, XElem.findall, XElem.children, XElem.childrenX, toList_listToX]

theorem findChild_xnode (t : String) (a : List (String × String)) (x : String)
    (cs : List XElem) (tg : String) :
    (xnode t a x cs).findChild tg = cs.find? (fun c => c.tag == tg) := by
  simp only [xnode, XElem.findChild, XElem.children, XElem.childrenX, toList_listToX]

theorem tag_xnode (t : String) (a : List (String × String)) (x : String)
    (cs : List XElem) : (xnode t a x cs).tag = t := rfl

theorem strip_partBody_measures (i : Nat) (pd : PartDef) (ts : Nat × Nat)
    (kf tempo : Int) (m : Nat) :
    ((stripElem (partBodyElem i pd ts kf tempo m)).findall "measure").length = m := by
  unfold partBodyElem
  rw [stripElem_xnode, findall_xnode]
  rw [List.filter_eq_self.mpr]
  · simp
  · intro e he
    simp only [List.mem_map, List.mem_range] at he
    obtain ⟨e0, ⟨j, hj, rfl⟩, rfl⟩ := he
    rfl

theorem strip_partBody_tag (i : Nat) (pd : PartDef) (ts : Nat × Nat)
    (kf tempo : Int) (m : Nat) :
    (stripElem (partBodyElem i pd ts kf tempo m)).tag = "part" := by
  unfold partBodyElem
  rw [stripElem_xnode, tag_xnode]

theorem validate_scoreTree_output (title composer : String)
    (parts : List PartDef) (ts : Nat × Nat) (kf tempo : Int) (m : Nat)
    (hp : parts ≠ []) (hm : 1 ≤ m) :
    validate_musicxml (xmlDeclLine ++ MUSICXML_DOCTYPE ++ "
" ++
      tostringPretty (scoreTree title composer parts ts kf tempo m)) =
      (true, none) := by
  unfold validate_musicxml
  rw [parseXML_pretty_document _ (wf_scoreTree title composer parts ts kf tempo m)]
  dsimp only
  have hpartsFilter : ((parts.mapIdx (fun i pd =>
      partBodyElem i pd ts kf tempo m)).map stripElem).filter
        (fun c => c.tag == "part") =
      (parts.mapIdx (fun i pd => partBodyElem i pd ts kf tempo m)).map stripElem := by
    rw [List.filter_eq_self.mpr]
    intro e he
    simp only [List.mem_map] at he
    obtain ⟨e0, he0, rfl⟩ := he
    obtain ⟨i, hi, rfl⟩ := List.exists_of_mem_mapIdx he0
    simp [strip_partBody_tag]
  have hpartsNoMeasureless : ∀ p ∈ (parts.mapIdx (fun i pd =>
      partBodyElem i pd ts kf tempo m)).map stripElem,
      ¬ ((p.findall "measure").length == 0) = true := by
    intro p hpmem
    simp only [List.mem_map] at hpmem
    obtain ⟨p0, hp0, rfl⟩ := hpmem
    obtain ⟨i, hi, rfl⟩ := List.exists_of_mem_mapIdx hp0
    rw [strip_partBody_measures]
    simp
    omega
  have hplen : ((parts.mapIdx (fun i pd =>
      partBodyElem i pd ts kf tempo m)).map stripElem).length ≠ 0 := by
    simp only [List.length_map, List.length_mapIdx]
    simpa using hp
  by_cases hcomp : composer ≠ ""
  · have hS : stripElem (scoreTree title composer parts ts kf tempo m) =
        xnode "score-partwise" [("version", "4.0")] ""
          (stripElem (xnode "work" [] "" [xnode "work-title" [] title []]) ::
           stripElem (xnode "identification" [] ""
             [xnode "creator" [("type", "composer")] composer []]) ::
           stripElem (xnode "part-list" [] "" (parts.map scorePartElem)) ::
           (parts.mapIdx (fun i pd =>
             partBodyElem i pd ts kf tempo m)).map stripElem) := by
      unfold scoreTree
      rw [if_pos hcomp, stripElem_xnode]
      simp only [List.map_append, List.map_cons, List.map_nil, List.cons_append,
        List.nil_append]
    rw [hS]
    rw [if_neg (by simp only [tag_xnode]; decide)]
    rw [findChild_xnode]
    rw [List.find?_cons_of_neg _ (by simp only [stripElem_xnode, tag_xnode]; decide)]
    rw [List.find?_cons_of_neg _ (by simp only [stripElem_xnode, tag_xnode]; decide)]
    rw [List.find?_cons_of_pos _ (by simp only [stripElem_xnode, tag_xnode]; decide)]
    dsimp only
    rw [findall_xnode]
    rw [List.filter_cons_of_neg (by simp only [stripElem_xnode, tag_xnode]; decide)]
    rw [List.filter_cons_of_neg (by simp only [stripElem_xnode, tag_xnode]; decide)]
    rw [List.filter_cons_of_neg (by simp only [stripElem_xnode, tag_xnode]; decide)]
    rw [hpartsFilter]
    rw [if_neg hplen]
    rw [List.find?_eq_none.mpr hpartsNoMeasureless]
  · have hS : stripElem (scoreTree title composer parts ts kf tempo m) =
        xnode "score-partwise" [("version", "4.0")] ""
          (stripElem (xnode "work" [] "" [xnode "work-title" [] title []]) ::
           stripElem (xnode "part-list" [] "" (parts.map scorePartElem)) ::
           (parts.mapIdx (fun i pd =>
             partBodyElem i pd ts kf tempo m)).map stripElem) := by
      unfold scoreTree
      rw [if_neg hcomp, stripElem_xnode]
      simp only [List.map_append, List.map_cons, List.map_nil, List.cons_append,
        List.nil_append]
    rw [hS]
    rw [if_neg (by simp only [tag_xnode]; decide)]
    rw [findChild_xnode]
    rw [List.find?_cons_of_neg _ (by simp only [stripElem_xnode, tag_xnode]; decide)]
    rw [List.find?_cons_of_pos _ (by simp only [stripElem_xnode, tag_xnode]; decide)]
    dsimp only
    rw [findall_xnode]
    rw [List.filter_cons_of_neg (by simp only [stripElem_xnode, tag_xnode]; decide)]
    rw [List.filter_cons_of_neg (by simp only [stripElem_xnode, tag_xnode]; decide)]
    rw [hpartsFilter]
    rw [if_neg hplen]
    rw [List.find?_eq_none.mpr hpartsNoMeasureless]

/-- C8: for every part list that is non-empty (or absent, in which case the
default single piano part is used) and every measure count ≥ 1, the document
produced by `create_empty_score` passes `validate_musicxml`:
the result is `(true, none)`. -/
theorem create_empty_score_validates (title composer : String)
    (parts : Option (List PartDef)) (ts : Nat × Nat) (kf tempo : Int)
    (m : Nat) (hp : parts.getD defaultParts ≠ []) (hm : 1 ≤ m) :
    validate_musicxml
      (create_empty_score title composer parts ts kf tempo m) = (true, none) := by
  unfold create_empty_score
  exact validate_scoreTree_output title composer (parts.getD defaultParts)
    ts kf tempo m hp hm

/-- Witness for `create_empty_score_validates`: the all-defaults call
(`parts=None`, 4 measures) and a two-part custom call with 1 measure. -/
theorem create_empty_score_validates_witness :
    ((none : Option (List PartDef)).getD defaultParts ≠ [] ∧
      validate_musicxml
        (create_empty_score "Untitled" "" none (4, 4) 0 120 4) = (true, none)) ∧
    ((some [⟨"P1", "Flute", some "Fl.", some "G", some 73⟩,
            ⟨"P2", "Cello", none, some "F", some 42⟩] :
        Option (List PartDef)).getD defaultParts ≠ [] ∧
      validate_musicxml
        (create_empty_score "Duo" "Anon" (some
          [⟨"P1", "Flute", some "Fl.", some "G", some 73⟩,
           ⟨"P2", "Cello", none, some "F", some 42⟩]) (3, 4) (-1) 90 1) =
        (true, none)) :=
  ⟨⟨by decide,
    create_empty_score_validates "Untitled" "" none (4, 4) 0 120 4
      (by decide) (by decide)⟩,
   ⟨by decide,
    create_empty_score_validates "Duo" "Anon" (some
        [⟨"P1", "Flute", some "Fl.", some "G", some 73⟩,
         ⟨"P2", "Cello", none, some "F", some 42⟩]) (3, 4) (-1) 90 1
      (by decide) (by decide)⟩⟩
